import Mathlib

/-
Verification development for the xml_data_generator repository: a shallow
embedding of the dependency-ordered XML export engine (wizard and models
variants of xml.data.generator) together with theorems settling the frozen
claims about it.  Python dictionaries are embedded as insertion-ordered
association lists, Python sets as insertion-ordered duplicate-free lists,
and fallible code returns Except.
-/

set_option maxHeartbeats 1000000
set_option maxRecDepth 100000

namespace XDG

/-- Python runtime values as they occur in the exporter: booleans, integers,
strings, recordsets (a model name and a list of numeric ids) and the lists of
external ids that replace recordsets during traversal. -/
inductive Value where
  | b (x : Bool)
  | i (n : Int)
  | s (str : String)
  | recs (model : String) (ids : List Nat)
  | xids (l : List String)
  deriving DecidableEq

/-- Python truthiness of a value: False, 0, the empty string, the empty
recordset and the empty list are falsy. -/
def truthy : Value → Bool
  | .b x => x
  | .i n => n != 0
  | .s str => str != ""
  | .recs _ ids => ids != []
  | .xids l => l != []

/-- Python equality between the values above.  Mixed bool/int comparisons
follow Python (False == 0, True == 1); a bool compared with a string or a
recordset is unequal. -/
def pyEq : Value → Value → Bool
  | .b x, .b y => x == y
  | .b x, .i n => if x then n == 1 else n == 0
  | .i n, .b x => if x then n == 1 else n == 0
  | .i m, .i n => m == n
  | .s a, .s c => a == c
  | .recs m l, .recs m2 l2 => m == m2 && l == l2
  | .xids a, .xids c => a == c
  | _, _ => false

/-- Exceptions the embedded code can raise.  missingRootRecord is the
MissingError raised explicitly by action_export_to_xml; missingRecordRead is
the MissingError the ORM raises when a field of a nonexistent record is read;
unboundLocal models the UnboundLocalError of referencing an unassigned local. -/
inductive PyErr where
  | accessError
  | missingRecordRead
  | missingRootRecord (msg : String)
  | unboundLocal
  | userError (msg : String)
  deriving DecidableEq

/-- Metadata of one field, as seen through the field object: its type name,
its comodel, whether it is computed, whether a default callable exists and
what it returns, and whether reading it raises AccessError. -/
structure FieldDef where
  ttype : String
  comodel : Option String := none
  isComputed : Bool := false
  hasDefault : Bool := false
  defaultVal : Value := .b false
  denied : Bool := false
  deriving DecidableEq

/-- One field snapshot: the dictionary {value, ttype, related_model} that
_xml_data_generator_get_field_data returns under the field name. -/
structure Snap where
  value : Value
  ttype : String
  related_model : Option String
  deriving DecidableEq

/-- One exported record: the model_name / xml_model metadata plus the
insertion-ordered field snapshots accumulated during traversal. -/
structure RecordData where
  model_name : String
  xml_model : String
  fields : List (String × Snap)
  deriving DecidableEq

/-- The surrounding Odoo database: field metadata per model, stored field
values per (model, id) record, and the ir.model.data registry mapping a
(model, id) pair to a (module, name) external id. -/
structure Env where
  models : List (String × List (String × FieldDef))
  recs : List ((String × Nat) × List (String × Value))
  xids : List ((String × Nat) × (String × String))
  deriving DecidableEq

/-- The wizard configuration fields relevant to an export run. -/
structure Settings where
  model_name : String := ""
  res_id : Nat := 0
  search_by_external_id : Bool := false
  xml_data_generator_external_id : String := ""
  mode : String := "real"
  recursive_depth : Nat := 0
  ignore_access : Bool := false
  avoid_duplicates : Bool := true
  deriving DecidableEq

instance {ε α : Type} [DecidableEq ε] [DecidableEq α] : DecidableEq (Except ε α) := by
  intro a b
  cases a <;> cases b
  case error.error e1 e2 =>
    exact match decEq e1 e2 with
      | isTrue h => isTrue (by rw [h])
      | isFalse h => isFalse (by intro hc; cases hc; exact h rfl)
  case ok.ok v1 v2 =>
    exact match decEq v1 v2 with
      | isTrue h => isTrue (by rw [h])
      | isFalse h => isFalse (by intro hc; cases hc; exact h rfl)
  case error.ok e v => exact isFalse (by intro hc; cases hc)
  case ok.error v e => exact isFalse (by intro hc; cases hc)

/-- First-match lookup in an insertion-ordered association list (dict[k]). -/
def alookup {α β : Type} [DecidableEq α] : List (α × β) → α → Option β
  | [], _ => none
  | (k, v) :: t, k2 => if k = k2 then some v else alookup t k2

/-- dict.get(k, d): lookup with a default. -/
def alookupD {α β : Type} [DecidableEq α] (l : List (α × β)) (k : α) (d : β) : β :=
  (alookup l k).getD d

/-- dict[k] = v: replace the value in place if the key exists (keeping its
insertion position), otherwise append the new binding at the end. -/
def aupd {α β : Type} [DecidableEq α] : List (α × β) → α → β → List (α × β)
  | [], k, v => [(k, v)]
  | (k2, v2) :: t, k, v => if k2 = k then (k, v) :: t else (k2, v2) :: aupd t k v

/-- set.add(x) on an insertion-ordered duplicate-free list. -/
def setAdd (l : List String) (x : String) : List String :=
  if x ∈ l then l else l ++ [x]

/-- d.setdefault(k, set()).add(x): add x to the set stored under k, creating
the set if the key is absent. -/
def sdAdd : List (String × List String) → String → String → List (String × List String)
  | [], k, x => [(k, [x])]
  | (k2, s) :: t, k, x =>
      if k2 = k then (k2, setAdd s x) :: t else (k2, s) :: sdAdd t k x

/-- Map a single character to another throughout a string; this is Python
str.replace for one-character patterns and replacements. -/
def charMap (f : Char → Char) (s : String) : String :=
  ⟨s.data.map f⟩

/-- model_name.replace(".", "_"). -/
def dotsToUnders (s : String) : String :=
  charMap (fun c => if c = '.' then '_' else c) s

/-- record_name.replace("_", "."). -/
def undersToDots (s : String) : String :=
  charMap (fun c => if c = '_' then '.' else c) s

/-- Python str.replace for a one-character pattern and a multi-character
replacement, scanning the original string left to right. -/
def charReplace (c : Char) (rep : List Char) (s : String) : String :=
  ⟨s.data.foldr (fun ch acc => if ch = c then rep ++ acc else ch :: acc) []⟩

/-- The single-quote character, used in ref(...) expressions. -/
def sq : Char := Char.ofNat 39

/-- A one-character string holding the single quote. -/
def sqs : String := String.mk [sq]

/-- SPECIAL_CHARACTER_MAP applied in source order ("&" first, then "<", ">"
and the double quote), as the escaping loop does for text-typed values. -/
def escapeStr (s : String) : String :=
  charReplace '"' "&quot;".data
    (charReplace '>' "&gt;".data
      (charReplace '<' "&lt;".data
        (charReplace '&' "&amp;".data s)))

/-- Escape a text value; non-string values are left untouched. -/
def escapeVal : Value → Value
  | .s str => .s (escapeStr str)
  | v => v

/-- TEXT_TTYPES from the source. -/
def TEXT_TTYPES : List String := ["char", "text", "html"]

/-- UNWANTED_FIELDS from the source. -/
def UNWANTED_FIELDS : List String :=
  ["id", "create_uid", "create_date", "write_uid", "write_date", "__last_update"]

/-- UNWANTED_TTYPES from the source. -/
def UNWANTED_TTYPES : List String := ["binary"]

/-- MAX_ROW_LENGTH from the source. -/
def MAX_ROW_LENGTH : Nat := 119

/-- EXTERNAL_ID_SEPARATOR from the source. -/
def EXTERNAL_ID_SEPARATOR : String := "_auto_"

/-- The marker that starts every synthesized virtual external id. -/
def virtualMark : String := "__xml_data_generator_virtual__."

/-- Fuelled helper for the decimal rendering; the fuel is structural so the
kernel can evaluate it, and any fuel above the argument gives the digits. -/
def natDecAux : Nat → Nat → List Char
  | 0, _ => []
  | fuel + 1, n =>
      if n < 10 then [Char.ofNat (48 + n)]
      else natDecAux fuel (n / 10) ++ [Char.ofNat (48 + n % 10)]

/-- Decimal digits of a natural number, most significant first; this is the
decimal rendering "%s" applies to a nonnegative Python int. -/
def natDec (n : Nat) : List Char := natDecAux (n + 1) n

/-- Decimal rendering of a natural number as a string. -/
def natDecStr (n : Nat) : String := ⟨natDec n⟩

/-- Python int() on a digit string: fold the decimal digits. -/
def parseDec (cs : List Char) : Nat :=
  cs.foldl (fun a c => 10 * a + (c.toNat - 48)) 0

/-- ir.model.data search_read: the (module, name) pair registered for a
(model, res_id) pair, if any. -/
def lookupXid (env : Env) (model : String) (id : Nat) : Option (String × String) :=
  alookup env.xids (model, id)

/-- _prepare_external_id (wizard): the real external id module.name when one
is registered, otherwise the synthesized virtual id
__xml_data_generator_virtual__.<model with dots as underscores>_auto_<id>. -/
def prepare_external_id (env : Env) (model_name : String) (res_id : Nat) : String :=
  match lookupXid env model_name res_id with
  | some (module, name) => module ++ "." ++ name
  | none => virtualMark ++ dotsToUnders model_name ++ EXTERNAL_ID_SEPARATOR ++ natDecStr res_id

/-- First index at which pat occurs in s, scanning from the left. -/
def findFirstFrom (pat s : List Char) : Nat → Nat → Option Nat
  | 0, _ => none
  | fuel + 1, i =>
      if pat.isPrefixOf (s.drop i) then some i else findFirstFrom pat s fuel (i + 1)

/-- str.find: the first occurrence of pat in s, if any. -/
def findFirst (pat s : List Char) : Option Nat :=
  findFirstFrom pat s (s.length + 1) 0

/-- Greatest i < bound satisfying p, scanning downward. -/
def findLastBelow (p : Nat → Bool) : Nat → Option Nat
  | 0 => none
  | n + 1 => if p n then some n else findLastBelow p n

/-- str.rfind: the greatest index at which pat occurs in s, if any. -/
def rfindChars (pat s : List Char) : Option Nat :=
  findLastBelow (fun i => pat.isPrefixOf (s.drop i)) (s.length + 1)

/-- Substring test, as Python in. -/
def containsSub (pat s : List Char) : Bool :=
  (findFirst pat s).isSome

/-- is_xml_data_generator_external_id: starts with the virtual marker and
contains the separator "_auto_". -/
def is_xml_data_generator_external_id (external_id : String) : Bool :=
  virtualMark.data.isPrefixOf external_id.data
    && containsSub EXTERNAL_ID_SEPARATOR.data external_id.data

/-- env.ref(external_id, raise_if_not_found=False): resolve a module.name
external id through ir.model.data, returning the (model, [id]) recordset. -/
def envRef (env : Env) (external_id : String) : Option (String × List Nat) :=
  (env.xids.find? (fun e => e.2.1 ++ "." ++ e.2.2 == external_id)).map
    (fun e => (e.1.1, [e.1.2]))

/-- _get_record_to_export (wizard): browse by model/res_id, or resolve the
external id; a virtual external id is parsed back into a model name and a
numeric id by splitting at the last occurrence of "_auto_". -/
def get_record_to_export (env : Env) (st : Settings) : Option (String × List Nat) :=
  if st.search_by_external_id then
    let external_id := st.xml_data_generator_external_id
    if ¬ is_xml_data_generator_external_id external_id then envRef env external_id
    else
      let record_name : List Char :=
        match findFirst virtualMark.data external_id.data with
        | some i => external_id.data.drop (i + virtualMark.data.length)
        | none => external_id.data
      let pos := (rfindChars EXTERNAL_ID_SEPARATOR.data record_name).getD 0
      let model_name := undersToDots ⟨record_name.take pos⟩
      let res_id := parseDec (record_name.drop (pos + EXTERNAL_ID_SEPARATOR.data.length))
      some (model_name, [res_id])
  else some (st.model_name, [st.res_id])

/-- Read record[field_name]: MissingError when the record does not exist,
AccessError when the field is denied, otherwise the stored value (an unset
stored field reads as False). -/
def readField (env : Env) (model : String) (id : Nat) (fname : String)
    (fd : FieldDef) : Except PyErr Value :=
  match alookup env.recs (model, id) with
  | none => .error .missingRecordRead
  | some vals =>
      if fd.denied then .error .accessError
      else .ok (alookupD vals fname (.b false))

/-- default_value as computed by "field_object.default and
field_object.default(record) or False". -/
def computeDefault (fd : FieldDef) : Value :=
  if fd.hasDefault then (if truthy fd.defaultVal then fd.defaultVal else .b false)
  else .b false

/-- Reference a Python local that may be unbound (never assigned because the
try block aborted); referencing an unbound local raises UnboundLocalError. -/
def useLocal : Option Value → Except PyErr Value
  | none => .error .unboundLocal
  | some v => .ok v

/-- The skip condition "(not ttype == 'boolean' and not current_value) or
default_value == current_value", evaluated with Python short-circuiting over
possibly-unbound locals. -/
def skipCond (ttype : String) (cur dflt : Option Value) : Except PyErr Bool :=
  if ttype ≠ "boolean" then
    match useLocal cur with
    | .error e => .error e
    | .ok cv =>
        if ¬ truthy cv then .ok true
        else
          match useLocal dflt with
          | .error e => .error e
          | .ok dv => .ok (pyEq dv cv)
  else
    match useLocal dflt with
    | .error e => .error e
    | .ok dv =>
        match useLocal cur with
        | .error e => .error e
        | .ok cv => .ok (pyEq dv cv)

/-- _xml_data_generator_get_field_data, wizard variant.  On AccessError with
ignore_access set, the code sets fetch_demo_field and continues with
current_value and default_value unassigned.  The per-model demo override hook
(_xml_data_generator_get_demo_<field>) is modelled as absent, so the demo
substitute is always "Demo <field>".  ustr on html values is the identity on
strings.  Returns none for the empty dictionary {}. -/
def get_field_data_wizard (env : Env) (st : Settings) (model : String) (id : Nat)
    (fname : String) (fd : FieldDef) : Except PyErr (Option Snap) :=
  let tryRes : Except PyErr (Option Value × Option Value × Bool) :=
    match readField env model id fname fd with
    | .error .accessError =>
        if ¬ st.ignore_access then .error .accessError
        else .ok (none, none, true)
    | .error e => .error e
    | .ok v =>
        let d := computeDefault fd
        if fd.ttype = "html" then
          .ok (some (if truthy v then v else .b false),
               some (if truthy d then d else .b false), false)
        else .ok (some v, some d, false)
  match tryRes with
  | .error e => .error e
  | .ok (cur0, dflt, fetch_demo) =>
      let demoStep : Except PyErr (Option Value) :=
        if (st.mode = "demo" ∨ fetch_demo) ∧ fd.ttype ∈ TEXT_TTYPES then
          match useLocal cur0 with
          | .error e => .error e
          | .ok cv =>
              if truthy cv then .ok (some (.s ("Demo " ++ fname))) else .ok cur0
        else .ok cur0
      match demoStep with
      | .error e => .error e
      | .ok cur =>
          match skipCond fd.ttype cur dflt with
          | .error e => .error e
          | .ok skip =>
              if skip then .ok none
              else
                match cur with
                | none => .error .unboundLocal
                | some cv =>
                    let cv := if fd.ttype ∈ TEXT_TTYPES ∧ truthy cv then escapeVal cv else cv
                    .ok (some { value := cv, ttype := fd.ttype, related_model := fd.comodel })

/-- _xml_data_generator_get_field_data, models variant: on AccessError with
ignore_access set the field is dropped ({} is returned); related_model is the
model of the recordset value for relational types, False otherwise. -/
def get_field_data_models (env : Env) (st : Settings) (model : String) (id : Nat)
    (fname : String) (fd : FieldDef) : Except PyErr (Option Snap) :=
  match readField env model id fname fd with
  | .error .accessError =>
      if ¬ st.ignore_access then .error .accessError else .ok none
  | .error e => .error e
  | .ok v0 =>
      let d0 := computeDefault fd
      let cv1 := if fd.ttype = "html" then (if truthy v0 then v0 else .b false) else v0
      let dv := if fd.ttype = "html" then (if truthy d0 then d0 else .b false) else d0
      let cv2 :=
        if st.mode = "demo" ∧ fd.ttype ∈ TEXT_TTYPES ∧ truthy cv1 then
          Value.s ("Demo " ++ fname)
        else cv1
      if (fd.ttype ≠ "boolean" ∧ ¬ truthy cv2) ∨ pyEq dv cv2 then .ok none
      else
        let cv3 := if fd.ttype ∈ TEXT_TTYPES ∧ truthy cv2 then escapeVal cv2 else cv2
        let rel : Option String :=
          if fd.ttype ∈ ["one2many", "many2one", "many2many"] then
            match cv3 with
            | .recs m _ => some m
            | _ => none
          else none
        .ok (some { value := cv3, ttype := fd.ttype, related_model := rel })

/-- _get_field_map: all fields of the model that are not computed, whose type
is not denylisted and whose name is not an audit/bookkeeping field. -/
def get_field_map (env : Env) (model_name : String) : List (String × FieldDef) :=
  (alookupD env.models model_name []).filter
    (fun f => ¬ f.2.isComputed ∧ f.2.ttype ∉ UNWANTED_TTYPES ∧ f.1 ∉ UNWANTED_FIELDS)

/-- _flag_stop_generating_xml_record: skip a record beyond depth 0 when it
already has a real external id and duplicate avoidance is on. -/
def flag_stop_generating_xml_record (st : Settings) (external_id : String)
    (recursive_depth : Nat) : Bool :=
  if recursive_depth = 0 then false
  else ¬ is_xml_data_generator_external_id external_id && st.avoid_duplicates

/-- The mutable state threaded through _prepare_data_to_export: the data
dictionary (bucketed by model, then external id), the dependency_tree, the
record- and model-level dependency maps, and an instrumentation trace that
records one entry each time the traversal enumerates the fields of a record
(the trace has no effect on any other component). -/
structure TravSt where
  data : List (String × List (String × RecordData))
  tree : List (String × List String)
  recDeps : List (String × List String)
  modelDeps : List (String × List String)
  trace : List (String × Nat)
  deriving DecidableEq

/-- The loop over related_recordset inside _prepare_data_to_export: collect
the child external ids, record record-level and model-level dependency edges
for non-one2many fields, and recurse on the whole related recordset (as the
source does) when the next depth does not exceed the configured limit. -/
def prepChild (env : Env) (st : Settings)
    (recur : String → List Nat → Nat → TravSt → Except PyErr TravSt)
    (model external_id rm : String) (rids : List Nat) (ttype : String) (depth : Nat) :
    List Nat → List String × TravSt → Except PyErr (List String × TravSt)
  | [], acc => .ok acc
  | rid :: rest, (cxids, s) =>
      let cxid := prepare_external_id env rm rid
      let cxids2 := cxids ++ [cxid]
      let s2 :=
        if ttype ≠ "one2many" then
          { s with tree := sdAdd s.tree external_id cxid,
                   modelDeps := sdAdd s.modelDeps rm model }
        else s
      if depth + 1 ≤ st.recursive_depth then
        match recur rm rids (depth + 1) s2 with
        | .error e => .error e
        | .ok s3 =>
            prepChild env st recur model external_id rm rids ttype depth rest (cxids2, s3)
      else prepChild env st recur model external_id rm rids ttype depth rest (cxids2, s2)

/-- The loop over field_map inside _prepare_data_to_export: fetch each field
snapshot, store it in record_data unless it is one2many, and for relational
fields with a nonempty snapshot walk the related records and replace the
recordset value by the list of child external ids. -/
def prepFields (env : Env) (st : Settings)
    (recur : String → List Nat → Nat → TravSt → Except PyErr TravSt)
    (model external_id : String) (id : Nat) (depth : Nat) :
    List (String × FieldDef) → RecordData × TravSt → Except PyErr (RecordData × TravSt)
  | [], acc => .ok acc
  | (fname, fd) :: rest, (rd, s) =>
      match get_field_data_wizard env st model id fname fd with
      | .error e => .error e
      | .ok fv =>
          let rd2 :=
            if fd.ttype ≠ "one2many" then
              match fv with
              | some snap => { rd with fields := aupd rd.fields fname snap }
              | none => rd
            else rd
          if fd.ttype ∉ ["one2many", "many2one", "many2many"] ∨ fv = none then
            prepFields env st recur model external_id id depth rest (rd2, s)
          else
            match fv with
            | none => prepFields env st recur model external_id id depth rest (rd2, s)
            | some snap =>
                let rm := match snap.value with | .recs m _ => m | _ => ""
                let rids := match snap.value with | .recs _ l => l | _ => []
                match prepChild env st recur model external_id rm rids fd.ttype depth
                    rids ([], s) with
                | .error e => .error e
                | .ok (cxids, s2) =>
                    let snap2 : Snap := { snap with value := .xids cxids }
                    let rd3 :=
                      if fd.ttype ≠ "one2many" then
                        { rd2 with fields := aupd rd2.fields fname snap2 }
                      else rd2
                    prepFields env st recur model external_id id depth rest (rd3, s2)

/-- The loop over records inside _prepare_data_to_export: compute the
external id, honor the duplicate-avoidance flag, enumerate the fields, then
store the record under its external id and copy its dependency set into the
record-level dependency map. -/
def prepRecords (env : Env) (st : Settings)
    (recur : String → List Nat → Nat → TravSt → Except PyErr TravSt)
    (model xml_model : String) (depth : Nat) (field_map : List (String × FieldDef)) :
    List Nat → TravSt → Except PyErr TravSt
  | [], s => .ok s
  | id :: rest, s =>
      let external_id := prepare_external_id env model id
      if flag_stop_generating_xml_record st external_id depth then
        prepRecords env st recur model xml_model depth field_map rest s
      else
        let s1 := { s with trace := s.trace ++ [(model, id)] }
        let rd0 : RecordData := { model_name := model, xml_model := xml_model, fields := [] }
        match prepFields env st recur model external_id id depth field_map (rd0, s1) with
        | .error e => .error e
        | .ok (rd, s2) =>
            let s3 := { s2 with
              data := aupd s2.data model (aupd (alookupD s2.data model []) external_id rd),
              recDeps := aupd s2.recDeps external_id (alookupD s2.tree external_id []) }
            prepRecords env st recur model xml_model depth field_map rest s3

/-- _prepare_data_to_export (wizard): recursive traversal, driven by a fuel
argument for termination.  Recursion into related records is guarded in the
source by depth + 1 <= recursive_depth, so calling with fuel
recursive_depth + 1 - depth never exhausts the fuel; the fuel-zero branch
(which performs no recursion) is unreachable from action_export_to_xml. -/
def prepare_data_to_export (env : Env) (st : Settings) :
    Nat → String → List Nat → Nat → TravSt → Except PyErr TravSt
  | 0, model, ids, depth, s =>
      prepRecords env st (fun _ _ _ s2 => .ok s2) model (dotsToUnders model) depth
        (get_field_map env model) ids s
  | fuel + 1, model, ids, depth, s =>
      prepRecords env st (prepare_data_to_export env st fuel) model (dotsToUnders model)
        depth (get_field_map env model) ids s

/-- All names occurring in an edge map: the keys followed by every name in a
dependency set.  Used only to bound the depth-first search. -/
def topoUniv (elems : List (String × List String)) : List String :=
  elems.map Prod.fst ++ (elems.map Prod.snd).flatten

/-- Modelled from the spec: the Dependency Resolver core (odoo.tools
topological_sort) is called by the repository but its code is not under src/.
Section 4.2 of the spec fixes its contract: a depth-first walk that starts
from each key in insertion order, visits the dependencies of a key before
emitting the key, emits only top-level keys (never leaf names that appear
only inside dependency sets), tolerates cycles through a visited set, and
breaks ties by insertion order.  This is the visit step of that walk. -/
def topoVisit (elems : List (String × List String)) :
    Nat → String → List String × List String → List String × List String
  | 0, _, vr => vr
  | fuel + 1, n, (vis, res) =>
      if n ∈ vis then (vis, res)
      else
        match alookup elems n with
        | none => (n :: vis, res)
        | some deps =>
            let vr := deps.foldl (fun vr2 d => topoVisit elems fuel d vr2) (n :: vis, res)
            (vr.1, vr.2 ++ [n])

/-- Modelled from the spec: the full Dependency Resolver resolve(edges)
contract of section 4.2 (see topoVisit). -/
def topological_sort (elems : List (String × List String)) : List String :=
  (elems.foldl (fun vr kd => topoVisit elems (1 + (topoUniv elems).length) kd.1 vr)
    ([], [])).2

/-- Python str.join: the separator between consecutive elements. -/
def pyJoin (sep : String) : List String → String
  | [] => ""
  | [x] => x
  | x :: y :: rest => x ++ sep ++ pyJoin sep (y :: rest)

/-- Rendering of a value inside a primary typed row ("%s" formatting).  Only
primitive values reach this in the pipeline. -/
def pyStrVal : Value → String
  | .b true => "True"
  | .b false => "False"
  | .i n => if n < 0 then "-" ++ natDecStr n.natAbs else natDecStr n.natAbs
  | .s str => str
  | .recs m _ => m
  | .xids l => pyJoin ", " l

/-- The four-space indentation unit of the row templates. -/
def t4 : String := "    "

/-- _prepare_primary_typed_row: eval attribute form for booleans, element
text form for every other primary type. -/
def prepare_primary_typed_row (field_value : Value) (field ttype : String) : String :=
  if ttype = "boolean" then
    t4 ++ t4 ++ "<field name=\"" ++ field ++ "\" eval=\"" ++ pyStrVal field_value ++ "\" />"
  else
    t4 ++ t4 ++ "<field name=\"" ++ field ++ "\">" ++ pyStrVal field_value ++ "</field>"

/-- The single-line many2one row template. -/
def m2oSingleRow (field ref_value : String) : String :=
  t4 ++ t4 ++ "<field name=\"" ++ field ++ "\" ref=\"" ++ ref_value ++ "\" />"

/-- The multi-line many2one row template. -/
def m2oMultiRow (field ref_value : String) : String :=
  t4 ++ t4 ++ "<field\n" ++ t4 ++ t4 ++ t4 ++ "name=\"" ++ field ++ "\"\n"
    ++ t4 ++ t4 ++ t4 ++ "ref=\"" ++ ref_value ++ "\"\n" ++ t4 ++ t4 ++ "/>"

/-- _prepare_many2one_row: take the first external id; None and the empty
string are falsy and suppress the row; fall back to the multi-line layout
when the single-line row is longer than MAX_ROW_LENGTH. -/
def prepare_many2one_row (xid_map : List String) (field : String) : Option String :=
  match xid_map.head? with
  | none => none
  | some record_xid =>
      if record_xid = "" then none
      else
        let row := m2oSingleRow field record_xid
        if row.length > MAX_ROW_LENGTH then some (m2oMultiRow field record_xid) else some row

/-- One element of the external_ids list: "ref('<xid>')". -/
def refWrap (x : String) : String := "ref(" ++ sqs ++ x ++ sqs ++ ")"

/-- The single-line eval payload: open "[(6, 0, [", the refs joined by a
comma and space, then the closing "])]". -/
def m2mEvalSingle (external_ids : List String) : String :=
  "[(6, 0, [" ++ pyJoin ", " external_ids ++ "])]"

/-- The single-line many2many row template. -/
def m2mSingleRow (field : String) (external_ids : List String) : String :=
  t4 ++ t4 ++ "<field name=\"" ++ field ++ "\" eval=\"" ++ m2mEvalSingle external_ids ++ "\" />"

/-- The multi-line eval payload, one ref per indented line with a trailing
comma, as the source templates produce. -/
def m2mEvalMulti (external_ids : List String) : String :=
  "[(6, 0, [\n" ++ t4 ++ t4 ++ t4 ++ t4
    ++ pyJoin (",\n" ++ t4 ++ t4 ++ t4 ++ t4) external_ids
    ++ ",\n" ++ t4 ++ t4 ++ t4 ++ "])]"

/-- The multi-line many2many row template. -/
def m2mMultiRow (field : String) (external_ids : List String) : String :=
  t4 ++ t4 ++ "<field\n" ++ t4 ++ t4 ++ t4 ++ "name=\"" ++ field ++ "\""
    ++ "\n" ++ t4 ++ t4 ++ t4 ++ "eval=\"" ++ m2mEvalMulti external_ids ++ "\""
    ++ "\n" ++ t4 ++ t4 ++ "/>"

/-- _prepare_many2many_row: wrap every external id in ref(...), suppress the
row when the list is empty, and fall back to the multi-line layout when the
single-line row is longer than MAX_ROW_LENGTH. -/
def prepare_many2many_row (xid_map : List String) (field : String) : Option String :=
  let external_ids := xid_map.map refWrap
  if external_ids = [] then none
  else
    let row := m2mSingleRow field external_ids
    if row.length > MAX_ROW_LENGTH then some (m2mMultiRow field external_ids) else some row

/-- The external-id list stored by traversal for a relational field. -/
def valueXids : Value → List String
  | .xids l => l
  | _ => []

/-- _prepare_xml_row_to_append: primary row for non-relational types,
reference rows for many2one and many2many, nothing for one2many. -/
def prepare_xml_row_to_append (field_name : String) (field_value : Value)
    (field_ttype : String) : Option String :=
  if field_ttype ∉ ["many2many", "many2one", "one2many"] then
    some (prepare_primary_typed_row field_value field_name field_ttype)
  else if field_ttype = "many2one" then prepare_many2one_row (valueXids field_value) field_name
  else if field_ttype = "many2many" then prepare_many2many_row (valueXids field_value) field_name
  else none

/-- sorted_model_dependencies_dict.get(name, -1). -/
def dictGetIdx (d : List (String × Nat)) (k : String) : Int :=
  match alookup d k with
  | some i => (i : Int)
  | none => -1

/-- The downstream-dependency suppression test of the rendering loop:
field_related_model is truthy and its order index is strictly below the
index of the record model. -/
def suppressedByOrder (smdd : List (String × Nat)) (model_name : String) (sn : Snap) : Bool :=
  match sn.related_model with
  | some r => r ≠ "" && dictGetIdx smdd r < dictGetIdx smdd model_name
  | none => false

/-- The row produced for one field, ignoring the order-suppression test; an
empty row string is falsy and appends nothing. -/
def renderFieldRowCore (p : String × Snap) : Option String :=
  match prepare_xml_row_to_append p.1 p.2.value p.2.ttype with
  | none => none
  | some row => if row = "" then none else some row

/-- The body of the per-field rendering loop in prepare_xml_data_to_export:
the field is skipped entirely when the order-suppression test fires,
otherwise its row (if any) is appended. -/
def renderFieldRow (smdd : List (String × Nat)) (model_name : String)
    (p : String × Snap) : Option String :=
  if suppressedByOrder smdd model_name p.2 then none else renderFieldRowCore p

/-- One rendered record block: the record wrapper line, the field rows in
field order, and the closing line, joined with newlines. -/
def renderRecord (smdd : List (String × Nat)) (external_id : String) (rd : RecordData) : String :=
  pyJoin "\n"
    (("    <record id=\"" ++ external_id ++ "\" model=\"" ++ rd.model_name ++ "\">")
      :: (rd.fields.filterMap (renderFieldRow smdd rd.model_name) ++ ["    </record>"]))

/-- prepare_xml_data_to_export (wizard): reorder one model bucket by the
record-level dependency order, render each record, and wrap everything in the
fixed XML header and footer. -/
def prepare_xml_data_to_export (unsorted_data : List (String × RecordData))
    (sorted_xml_dependencies : List String) (smdd : List (String × Nat)) : String :=
  let sorted_data := sorted_xml_dependencies.filterMap
    (fun xid => (alookup unsorted_data xid).map (fun rd => (xid, rd)))
  "<?xml version=\"1.0\" ?>\n<odoo>\n"
    ++ pyJoin "\n\n" (sorted_data.map (fun p => renderRecord smdd p.1 p.2))
    ++ "\n</odoo>\n"

/-- list(set(xs) - set(ys)): the distinct members of xs that are not in ys.
CPython iterates sets in an unspecified (hash) order; this model refines that
to first-insertion order, and no theorem below depends on the chosen order. -/
def pySetDiff (xs ys : List String) : List String :=
  xs.dedup.filter (fun x => x ∉ ys)

/-- {model: i for i, model in enumerate(l)} as an association list (a later
duplicate overwrites an earlier index, as in a dict comprehension). -/
def enumDict (l : List String) : List (String × Nat) :=
  l.enum.foldl (fun d p => aupd d p.2 p.1) []

/-- All intermediate results of one action_export_to_xml run, named after the
locals of the source function. -/
structure ExportStages where
  data2export : List (String × List (String × RecordData))
  recDeps : List (String × List String)
  modelDeps : List (String × List String)
  sorted_xml_dependencies : List String
  sorted_models_raw : List String
  sorted_model_dependencies : List String
  sorted_model_dependencies_dict : List (String × Nat)
  file_strings : List (String × String)
  fetched_data : String
  trace : List (String × Nat)
  deriving DecidableEq

/-- action_export_to_xml (wizard), kept stage by stage: resolve the root
recordset, raise the missing-root MissingError only when the recordset is
falsy AND search_by_external_id is set, traverse, topologically sort both
dependency maps, prepend the models present in the data but absent from the
sorted model order (the record-level order gets no such prepend), render one
document per model, and assemble fetched_data from the reversed file list. -/
def action_export_stages (env : Env) (st : Settings) : Except PyErr ExportStages :=
  let records2export := get_record_to_export env st
  let rsFalsy : Bool :=
    match records2export with
    | none => true
    | some (_, ids) => ids.isEmpty
  if rsFalsy ∧ st.search_by_external_id then
    .error (.missingRootRecord "Record does not exist or has been deleted.")
  else
    match records2export with
    | none => .error (.userError "NoneType has no attribute _name")
    | some (model, ids) =>
        match prepare_data_to_export env st (st.recursive_depth + 1) model ids 0
            { data := [], tree := [], recDeps := [], modelDeps := [], trace := [] } with
        | .error e => .error e
        | .ok s =>
            let sorted_xml_dependencies := topological_sort s.recDeps
            let sorted_models_raw := topological_sort s.modelDeps
            let sorted_model_dependencies :=
              pySetDiff (s.data.map Prod.fst) sorted_models_raw ++ sorted_models_raw
            let smdd := enumDict sorted_model_dependencies
            let file_strings := sorted_model_dependencies.foldl
              (fun fs m =>
                match alookup s.data m with
                | none => fs
                | some bucket =>
                    aupd fs m (prepare_xml_data_to_export bucket sorted_xml_dependencies smdd))
              []
            .ok { data2export := s.data,
                  recDeps := s.recDeps,
                  modelDeps := s.modelDeps,
                  sorted_xml_dependencies := sorted_xml_dependencies,
                  sorted_models_raw := sorted_models_raw,
                  sorted_model_dependencies := sorted_model_dependencies,
                  sorted_model_dependencies_dict := smdd,
                  file_strings := file_strings,
                  fetched_data := pyJoin "\n" ((file_strings.map Prod.snd).reverse),
                  trace := s.trace }

/-- Field metadata shorthand: a many2one field pointing at the given model. -/
def fdM2o (m : String) : FieldDef := { ttype := "many2one", comodel := some m }

/-- Field metadata shorthand: a plain char field. -/
def fdChar : FieldDef := { ttype := "char" }

/-- Environment with one record of model m.a whose many2one field fa points
at the record (m.b, 2); no external ids are registered, so both records get
virtual external ids. -/
def envAB : Env :=
  { models := [("m.a", [("fa", fdM2o "m.b")]), ("m.b", [("nm", fdChar)])],
    recs := [(("m.a", 1), [("fa", .recs "m.b" [2])]),
             (("m.b", 2), [("nm", .s "x")])],
    xids := [] }

/-- Export settings for envAB: depth 0, search by model and id. -/
def stAB : Settings := { model_name := "m.a", res_id := 1 }

/-- The virtual external id of (m.a, 1). -/
def xidA : String := "__xml_data_generator_virtual__.m_a_auto_1"

/-- The virtual external id of (m.b, 2). -/
def xidB : String := "__xml_data_generator_virtual__.m_b_auto_2"

/-- Environment where (m.b, 3) is referenced by two different records: the
root (m.a, 1) via f1 and the intermediate (m.p, 2) via g, which the root
reaches via f2. -/
def envC2 : Env :=
  { models := [("m.a", [("f1", fdM2o "m.b"), ("f2", fdM2o "m.p")]),
               ("m.p", [("g", fdM2o "m.b")]),
               ("m.b", [("nm", fdChar)])],
    recs := [(("m.a", 1), [("f1", .recs "m.b" [3]), ("f2", .recs "m.p" [2])]),
             (("m.p", 2), [("g", .recs "m.b" [3])]),
             (("m.b", 3), [("nm", .s "z")])],
    xids := [] }

/-- Export settings for envC2: recursion depth 2 so the shared record is
reachable from both of its referrers. -/
def stC2 : Settings := { model_name := "m.a", res_id := 1, recursive_depth := 2 }

/-- Environment with a record of model m.s whose many2one field fs points at
the record itself. -/
def envSelf : Env :=
  { models := [("m.s", [("fs", fdM2o "m.s")])],
    recs := [(("m.s", 1), [("fs", .recs "m.s" [1])])],
    xids := [] }

/-- Export settings for envSelf. -/
def stSelf : Settings := { model_name := "m.s", res_id := 1 }

/-- Environment whose model m.x is known but holds no record at all. -/
def envMissing : Env :=
  { models := [("m.x", [("nm", fdChar)])], recs := [], xids := [] }

/-- Settings that export the nonexistent record (m.x, 7) by model and id. -/
def stById : Settings := { model_name := "m.x", res_id := 7 }

/-- Settings that export through a real-form external id that resolves to no
record. -/
def stByXid : Settings :=
  { search_by_external_id := true, xml_data_generator_external_id := "base.unknown" }

/-- Environment with a boolean field fb, currently False, with no default
callable, on the existing record (m.c, 1). -/
def envBool : Env :=
  { models := [("m.c", [("fb", { ttype := "boolean" })])],
    recs := [(("m.c", 1), [("fb", .b false)])],
    xids := [] }

/-- The boolean field definition of envBool. -/
def fdBool : FieldDef := { ttype := "boolean" }

/-- Environment with a char field sec whose read raises AccessError, on the
existing record (m.d, 1). -/
def envDenied : Env :=
  { models := [("m.d", [("sec", { ttype := "char", denied := true })])],
    recs := [(("m.d", 1), [("sec", .s "secret")])],
    xids := [] }

/-- The denied char field definition of envDenied. -/
def fdDenied : FieldDef := { ttype := "char", denied := true }

/-- Settings with the lenient access policy (ignore_access) enabled. -/
def stLenient : Settings := { ignore_access := true }

/-- Settings with the default strict access policy. -/
def stStrict : Settings := { ignore_access := false }

/-- Environment like envBool but with the boolean field currently True. -/
def envBoolT : Env :=
  { models := [("m.c", [("fb", { ttype := "boolean" })])],
    recs := [(("m.c", 1), [("fb", .b true)])],
    xids := [] }

/-- The virtual external id of (m.b, 3) in envC2. -/
def xidB3 : String := "__xml_data_generator_virtual__.m_b_auto_3"

/-- The virtual external id of (m.p, 2) in envC2. -/
def xidP : String := "__xml_data_generator_virtual__.m_p_auto_2"

/-- The virtual external id of (m.s, 1) in envSelf. -/
def xidS : String := "__xml_data_generator_virtual__.m_s_auto_1"

/-- The guarded dependency insertion of the models variant of
_prepare_data_to_export: the edge parent -> child is added unless the parent
is already recorded among the dependencies of the child (a guard against
re-inserting mutual edges, not against self-loops). -/
def sdAddGuarded (tree : List (String × List String)) (parent child : String) :
    List (String × List String) :=
  if parent ∈ alookupD tree child [] then tree else sdAdd tree parent child

/-- The keys of an edge map. -/
def keysOf (elems : List (String × List String)) : List String := elems.map Prod.fst

/-- a occurs at a strictly smaller index than b in the list. -/
def beforeIn (res : List String) (a b : String) : Prop :=
  ∃ i j : Nat, i < j ∧ res[i]? = some a ∧ res[j]? = some b

/-- The edge map allows a ranking in which every dependency that is itself a
key ranks strictly below its dependent; for finite maps this is exactly
acyclicity of the dependency relation restricted to keys. -/
def rankAcyclic (elems : List (String × List String)) (rank : String → Nat) : Prop :=
  ∀ p ∈ elems, ∀ d ∈ p.2, d ∈ keysOf elems → rank d < rank p.1

/-- The record-level edge map that traversal produces for envC2. -/
def edgesC2 : List (String × List String) :=
  [(xidB3, []), (xidP, [xidB3]), (xidA, [xidB3, xidP])]

/-- A ranking witnessing that edgesC2 is acyclic. -/
def rankC2 (s : String) : Nat := if s = xidB3 then 0 else if s = xidP then 1 else 2

/-- Collect the maximal single-quote-delimited segments of a character list:
outside a segment, skip until an opening quote; inside, accumulate until the
closing quote. -/
def quoteSegsAux : List Char → Option (List Char) → List (List Char)
  | [], _ => []
  | c :: cs, none =>
      if c = sq then quoteSegsAux cs (some []) else quoteSegsAux cs none
  | c :: cs, some acc =>
      if c = sq then acc.reverse :: quoteSegsAux cs none
      else quoteSegsAux cs (some (c :: acc))

/-- The list of single-quoted identifiers of a rendered row, in order; on the
many2many rows these are exactly the ref(...) targets. -/
def quotedIds (s : String) : List String :=
  (quoteSegsAux s.data none).map String.mk

/-- The 67-character identifier of the length-boundary example. -/
def longXid : String := String.mk (List.replicate 67 'a')

/-- The empty traversal state passed by action_export_to_xml. -/
def emptyTS : TravSt :=
  { data := [], tree := [], recDeps := [], modelDeps := [], trace := [] }

/-- The data dictionary of a traversal outcome; a raised error left no data. -/
def dataOf : Except PyErr TravSt → List (String × List (String × RecordData))
  | .ok s => s.data
  | .error _ => []

/-- Stage record of a run that raised before reaching the staging locals. -/
def emptyStages : ExportStages :=
  { data2export := [], recDeps := [], modelDeps := [], sorted_xml_dependencies := [],
    sorted_models_raw := [], sorted_model_dependencies := [],
    sorted_model_dependencies_dict := [], file_strings := [], fetched_data := "",
    trace := [] }

/-- The stages of an export run, with the empty stages for a raised error. -/
def stagesOf : Except PyErr ExportStages → ExportStages
  | .ok s => s
  | .error _ => emptyStages

/-- Settings that search for the virtual external id synthesized for
(res.partner, 42) in envAB, where no external id is registered. -/
def stC10 : Settings :=
  { search_by_external_id := true,
    xml_data_generator_external_id := prepare_external_id envAB "res.partner" 42 }

/-- The names of topoUniv not yet visited; this quantity strictly decreases
whenever the depth-first walk enters a new node, bounding the recursion. -/
def countUnvis (elems : List (String × List String)) (vis : List String) : Nat :=
  ((topoUniv elems).dedup.filter (fun x => x ∉ vis)).length

/-- The invariant of the depth-first walk of the Dependency Resolver: the
emitted list is duplicate-free, contains only visited keys, and lists every
key dependency of an emitted key strictly before it. -/
def TopoInv (elems : List (String × List String)) (vis res : List String) : Prop :=
  res.Nodup ∧ (∀ x ∈ res, x ∈ vis) ∧ (∀ x ∈ res, x ∈ keysOf elems) ∧
    (∀ k deps d, k ∈ res → alookup elems k = some deps → d ∈ deps →
       d ∈ keysOf elems → d ∈ res ∧ beforeIn res d k)

/-! Helper lemmas about the dictionary and set embeddings. -/

theorem mem_setAdd_self (s : List String) (x : String) : x ∈ setAdd s x := by
  unfold setAdd
  split
  · assumption
  · simp

theorem mem_sdAdd_self (tree : List (String × List String)) (k x : String) :
    x ∈ alookupD (sdAdd tree k x) k [] := by
  induction tree with
  | nil => simp [sdAdd, alookupD, alookup]
  | cons h t ih =>
      obtain ⟨k2, s⟩ := h
      by_cases hk : k2 = k
      · subst hk
        simpa [sdAdd, alookupD, alookup] using mem_setAdd_self s x
      · simpa [sdAdd, hk, alookupD, alookup] using ih

theorem mem_sdAddGuarded_self (tree : List (String × List String)) (x : String) :
    x ∈ alookupD (sdAddGuarded tree x x) x [] := by
  unfold sdAddGuarded
  split
  · assumption
  · exact mem_sdAdd_self tree x x

/-- C7.  When reading a field raises an access error: without ignore_access
the AccessError propagates fatally in both variants; with ignore_access the
models variant omits the field (empty snapshot), while the wizard variant,
whose own comment and help text promise a dummied demo value, instead crashes
with UnboundLocalError because current_value was never assigned inside the
aborted try block. -/
theorem c7_thm :
    get_field_data_wizard envDenied stStrict "m.d" 1 "sec" fdDenied = .error .accessError
    ∧ get_field_data_models envDenied stStrict "m.d" 1 "sec" fdDenied = .error .accessError
    ∧ get_field_data_models envDenied stLenient "m.d" 1 "sec" fdDenied = .ok none
    ∧ get_field_data_wizard envDenied stLenient "m.d" 1 "sec" fdDenied
        = .error .unboundLocal := by
  refine ⟨by decide, by decide, by decide, by decide⟩

/-- C6 counterexample.  An entity whose many2one field points at itself: the
traversal of action_export_to_xml records its own external id inside its own
record-level dependency set, and its model inside its own model-level
dependency set, contradicting the claim that self-loops are never recorded. -/
theorem c6_counterexample :
    (action_export_stages envSelf stSelf).toOption.map
        (fun s => (s.recDeps, s.modelDeps))
      = some ([(xidS, [xidS])], [("m.s", ["m.s"])]) := by decide

/-- C6 amended.  No self-loop filtering exists: the unconditional edge
insertion of the wizard records an entity as its own dependency whenever a
reference field points at itself, the guarded insertion of the models variant
does the same (its guard only prevents re-insertion), and the export pipeline
on a self-referencing record yields the self-loop at both the record level
and the type level. -/
theorem c6_amended_thm :
    (∀ (tree : List (String × List String)) (xid : String),
        xid ∈ alookupD (sdAdd tree xid xid) xid [])
    ∧ (∀ (tree : List (String × List String)) (xid : String),
        xid ∈ alookupD (sdAddGuarded tree xid xid) xid [])
    ∧ (action_export_stages envSelf stSelf).toOption.map
        (fun s => alookupD s.recDeps xidS []) = some [xidS]
    ∧ (action_export_stages envSelf stSelf).toOption.map
        (fun s => alookupD s.modelDeps "m.s" []) = some ["m.s"] := by
  refine ⟨fun tree xid => mem_sdAdd_self tree xid xid,
          fun tree xid => mem_sdAddGuarded_self tree xid,
          by decide, by decide⟩

/-- C2 counterexample.  In envC2 the record (m.b, 3) is referenced by two
traversed records (the root and the intermediate record, as both dependency
sets show), yet the traversal enumerates and snapshots its fields twice: the
visit trace counts it twice, refuting the claimed at-most-once invariant. -/
theorem c2_counterexample :
    (action_export_stages envC2 stC2).toOption.map
        (fun s => (s.trace.count ("m.b", 3), s.recDeps))
      = some (2, [(xidB3, []), (xidP, [xidB3]), (xidA, [xidB3, xidP])]) := by decide

/-- C8 counterexample.  Exporting the nonexistent record (m.x, 7) by model
and numeric id (search_by_external_id disabled) does not fail with the
nothing-to-export MissingError: the pre-traversal check requires
search_by_external_id, so the run instead dies inside traversal on the first
field read of the missing record.  No document is produced either way. -/
theorem c8_counterexample :
    action_export_stages envMissing stById = .error .missingRecordRead
    ∧ (∀ msg : String, PyErr.missingRecordRead ≠ PyErr.missingRootRecord msg)
    ∧ alookup envMissing.recs ("m.x", 7) = none := by
  refine ⟨by decide, ?_, by decide⟩
  intro msg h
  cases h

/-- C5 counterexample.  In envAB the record-level edge map produced by
traversal has the leaf external id of (m.b, 2) only as a dependency value;
the topological sort omits it and action_export_to_xml uses that sorted list
as is, without prepending the missing key, refuting the claim that the
prepend step is applied to the record-level resolution as well. -/
theorem c5_counterexample :
    (action_export_stages envAB stAB).toOption.map
        (fun s => (s.recDeps, s.sorted_xml_dependencies))
      = some ([(xidA, [xidB])], [xidA])
    ∧ (action_export_stages envAB stAB).toOption.map
        (fun s => decide (xidB ∈ s.sorted_xml_dependencies)) = some false := by
  refine ⟨by decide, by decide⟩

/-- C1 counterexample.  The record-level edge map of envAB is acyclic and
produced by traversal, its only dependency value is the leaf external id of
(m.b, 2), and the resolution step of action_export_to_xml returns a sequence
that does not contain that dependency at all, so the sequence does not list
every dependency strictly before its dependent. -/
theorem c1_counterexample :
    (action_export_stages envAB stAB).toOption.map ExportStages.recDeps
      = some [(xidA, [xidB])]
    ∧ topological_sort [(xidA, [xidB])] = [xidA]
    ∧ (action_export_stages envAB stAB).toOption.map
        (fun s => decide (xidB ∈ topological_sort s.recDeps)) = some false := by
  refine ⟨by decide, by decide, by decide⟩

theorem alookup_aupd {β : Type} [DecidableEq String] (l : List (String × β))
    (k : String) (v : β) (k2 : String) :
    alookup (aupd l k v) k2 = if k = k2 then some v else alookup l k2 := by
  induction l with
  | nil => simp [aupd, alookup]
  | cons h t ih =>
      obtain ⟨k3, v3⟩ := h
      by_cases hk : k3 = k
      · subst hk
        by_cases hq : k3 = k2 <;> simp [aupd, alookup, hq]
      · by_cases hq : k3 = k2
        · subst hq
          have hk2 : ¬ k = k3 := fun hc => hk hc.symm
          simp [aupd, alookup, hk, hk2]
        · simp [aupd, alookup, hk, hq, ih]

theorem aupd_keys {β : Type} (l : List (String × β)) (k : String) (v : β) :
    (aupd l k v).map Prod.fst =
      if k ∈ l.map Prod.fst then l.map Prod.fst else l.map Prod.fst ++ [k] := by
  induction l with
  | nil => simp [aupd]
  | cons h t ih =>
      obtain ⟨k3, v3⟩ := h
      by_cases hk : k3 = k
      · subst hk
        simp [aupd]
      · have hk2 : ¬ k = k3 := fun hc => hk hc.symm
        by_cases hm : k ∈ t.map Prod.fst
        · simp [aupd, hk, ih, hm, hk2]
        · simp [aupd, hk, ih, hm, hk2]

theorem aupd_keys_nodup {β : Type} (l : List (String × β)) (k : String) (v : β)
    (hl : (l.map Prod.fst).Nodup) : ((aupd l k v).map Prod.fst).Nodup := by
  rw [aupd_keys]
  by_cases hm : k ∈ l.map Prod.fst
  · simpa [hm] using hl
  · simp [hm]
    refine List.Nodup.append hl (List.nodup_singleton k) ?_
    intro a ha hak
    rw [List.mem_singleton] at hak
    subst hak
    exact hm ha

/-- The per-bucket key-uniqueness property of the traversal data. -/
theorem prepChild_dataNodup (env : Env) (st : Settings)
    (recur : String → List Nat → Nat → TravSt → Except PyErr TravSt)
    (hrec : ∀ m ids depth s s2, recur m ids depth s = .ok s2 →
        (∀ mm b, alookup s.data mm = some b → (b.map Prod.fst).Nodup) →
        (∀ mm b, alookup s2.data mm = some b → (b.map Prod.fst).Nodup))
    (model external_id rm : String) (rids : List Nat) (ttype : String) (depth : Nat) :
    ∀ (l : List Nat) (cxids : List String) (s : TravSt) (out : List String × TravSt),
      prepChild env st recur model external_id rm rids ttype depth l (cxids, s) = .ok out →
      (∀ mm b, alookup s.data mm = some b → (b.map Prod.fst).Nodup) →
      (∀ mm b, alookup out.2.data mm = some b → (b.map Prod.fst).Nodup) := by
  intro l
  induction l with
  | nil =>
      intro cxids s out h hP
      simp only [prepChild] at h
      cases h
      exact hP
  | cons rid rest ih =>
      intro cxids s out h hP
      simp only [prepChild] at h
      split at h
      · split at h
        · exact absurd h (by simp)
        · rename_i s3 hr
          refine ih _ _ _ h ?_
          refine hrec _ _ _ _ _ hr ?_
          split
          · exact hP
          · exact hP
      · refine ih _ _ _ h ?_
        split
        · exact hP
        · exact hP

theorem prepFields_dataNodup (env : Env) (st : Settings)
    (recur : String → List Nat → Nat → TravSt → Except PyErr TravSt)
    (hrec : ∀ m ids depth s s2, recur m ids depth s = .ok s2 →
        (∀ mm b, alookup s.data mm = some b → (b.map Prod.fst).Nodup) →
        (∀ mm b, alookup s2.data mm = some b → (b.map Prod.fst).Nodup))
    (model external_id : String) (id : Nat) (depth : Nat) :
    ∀ (fm : List (String × FieldDef)) (rd : RecordData) (s : TravSt)
      (out : RecordData × TravSt),
      prepFields env st recur model external_id id depth fm (rd, s) = .ok out →
      (∀ mm b, alookup s.data mm = some b → (b.map Prod.fst).Nodup) →
      (∀ mm b, alookup out.2.data mm = some b → (b.map Prod.fst).Nodup) := by
  intro fm
  induction fm with
  | nil =>
      intro rd s out h hP
      simp only [prepFields] at h
      cases h
      exact hP
  | cons p rest ih =>
      obtain ⟨fname, fd⟩ := p
      intro rd s out h hP
      simp only [prepFields] at h
      split at h
      · exact absurd h (by simp)
      · split at h
        · exact ih _ _ _ h hP
        · split at h
          · exact ih _ _ _ h hP
          · split at h
            · exact absurd h (by simp)
            · rename_i cxs2 hpc
              obtain ⟨cxids2, s2⟩ := cxs2
              exact ih _ _ _ h
                (prepChild_dataNodup env st recur hrec model external_id _ _ _ depth
                  _ _ _ _ hpc hP)

theorem prepRecords_dataNodup (env : Env) (st : Settings)
    (recur : String → List Nat → Nat → TravSt → Except PyErr TravSt)
    (hrec : ∀ m ids depth s s2, recur m ids depth s = .ok s2 →
        (∀ mm b, alookup s.data mm = some b → (b.map Prod.fst).Nodup) →
        (∀ mm b, alookup s2.data mm = some b → (b.map Prod.fst).Nodup))
    (model xml_model : String) (depth : Nat) (fm : List (String × FieldDef)) :
    ∀ (ids : List Nat) (s : TravSt) (out : TravSt),
      prepRecords env st recur model xml_model depth fm ids s = .ok out →
      (∀ mm b, alookup s.data mm = some b → (b.map Prod.fst).Nodup) →
      (∀ mm b, alookup out.data mm = some b → (b.map Prod.fst).Nodup) := by
  intro ids
  induction ids with
  | nil =>
      intro s out h hP
      simp only [prepRecords] at h
      cases h
      exact hP
  | cons id rest ih =>
      intro s out h hP
      simp only [prepRecords] at h
      split at h
      · exact ih _ _ h hP
      · split at h
        · exact absurd h (by simp)
        · rename_i rd s2 hpf
          have hP2 : ∀ mm b, alookup s2.data mm = some b → (b.map Prod.fst).Nodup :=
            prepFields_dataNodup env st recur hrec model _ id depth fm _ _ _ hpf
              (by simpa using hP)
          refine ih _ _ h ?_
          intro mm b hb
          simp only [alookup_aupd] at hb
          split at hb
          · cases hb
            rcases hlk : alookup s2.data model with hnone | b0
            · simp [alookupD, hlk, aupd]
            · exact aupd_keys_nodup _ _ _ (by simpa [alookupD, hlk] using hP2 model b0 hlk)
          · exact hP2 mm b hb

theorem prepare_data_to_export_dataNodup (env : Env) (st : Settings) :
    ∀ (fuel : Nat) (model : String) (ids : List Nat) (depth : Nat) (s out : TravSt),
      prepare_data_to_export env st fuel model ids depth s = .ok out →
      (∀ mm b, alookup s.data mm = some b → (b.map Prod.fst).Nodup) →
      (∀ mm b, alookup out.data mm = some b → (b.map Prod.fst).Nodup) := by
  intro fuel
  induction fuel with
  | zero =>
      intro model ids depth s out h hP
      refine prepRecords_dataNodup env st _ ?_ model _ depth _ ids s out h hP
      intro m ids2 depth2 s2 s3 hr hP2
      cases hr
      exact hP2
  | succ fuel ih =>
      intro model ids depth s out h hP
      refine prepRecords_dataNodup env st _ ?_ model _ depth _ ids s out h hP
      intro m ids2 depth2 s2 s3 hr hP2
      exact ih m ids2 depth2 s2 s3 hr hP2

/-- C2 amended.  The traversal keeps no visited-set memoization: an entity
referenced by two already-traversed records is re-entered and its fields are
snapshotted again (the instrumented visit trace of envC2 counts the shared
record twice, while both referrers hold dependency edges to it); still,
exactly one record keyed by its XID appears in the output data, because every
bucket of the data dictionary provably has duplicate-free XID keys, a later
snapshot overwriting the earlier one. -/
theorem c2_amended_thm :
    (∀ (env : Env) (st : Settings) (fuel : Nat) (model : String) (ids : List Nat)
        (depth : Nat) (m : String),
        ((alookupD (dataOf (prepare_data_to_export env st fuel model ids depth emptyTS))
            m []).map Prod.fst).Nodup)
    ∧ (action_export_stages envC2 stC2).toOption.map
        (fun s => (s.trace.count ("m.b", 3),
                   (alookupD s.data2export "m.b" []).map Prod.fst,
                   alookupD s.recDeps xidA [], alookupD s.recDeps xidP []))
      = some (2, [xidB3], [xidB3, xidP], [xidB3]) := by
  constructor
  · intro env st fuel model ids depth m
    rcases hres : prepare_data_to_export env st fuel model ids depth emptyTS with e | s1
    · simp [dataOf, alookupD, alookup]
    · have hP := prepare_data_to_export_dataNodup env st fuel model ids depth emptyTS s1
        hres (by intro mm b hb; simp [emptyTS, alookup] at hb)
      rcases hlk : alookup s1.data m with hnone | b
      · simp [dataOf, alookupD, hlk]
      · simpa [dataOf, alookupD, hlk] using hP m b hlk
  · decide

/-- C4 counterexample.  The boolean field fb of the existing record (m.c, 1)
reads as False and has no default callable, so its computed default is also
False; the wizard snapshot function returns the empty dictionary for it, so a
False boolean is not exported, refuting the claim that boolean snapshots are
present regardless of value. -/
theorem c4_counterexample :
    readField envBool "m.c" 1 "fb" fdBool = .ok (.b false)
    ∧ get_field_data_wizard envBool stStrict "m.c" 1 "fb" fdBool = .ok none := by
  refine ⟨by decide, by decide⟩

/-- C4 amended.  A boolean field that reads successfully is snapshotted iff
its value differs under Python equality from the computed default (absent
default callables compute to False): booleans bypass the emptiness-skip rule
but not the default-equality rule, whatever the mode or access policy. -/
theorem c4_amended_thm (env : Env) (st : Settings) (model : String) (id : Nat)
    (fname : String) (fd : FieldDef) (v : Value)
    (hb : fd.ttype = "boolean")
    (hread : readField env model id fname fd = .ok v) :
    get_field_data_wizard env st model id fname fd
      = (if pyEq (computeDefault fd) v then .ok none
         else .ok (some { value := v, ttype := fd.ttype, related_model := fd.comodel })) := by
  unfold get_field_data_wizard
  rw [hread, hb]
  by_cases hpe : pyEq (computeDefault fd) v = true
  · simp [skipCond, useLocal, TEXT_TTYPES, hpe]
  · simp [skipCond, useLocal, TEXT_TTYPES, hpe, hb]

/-- C4 witness: the boolean field of envBoolT reads as True with computed
default False, so the snapshot is present. -/
theorem c4_witness :
    get_field_data_wizard envBoolT stStrict "m.c" 1 "fb" fdBool
      = (if pyEq (computeDefault fdBool) (.b true) then .ok none
         else .ok (some { value := .b true, ttype := fdBool.ttype,
                          related_model := fdBool.comodel })) :=
  c4_amended_thm envBoolT stStrict "m.c" 1 "fb" fdBool (.b true) (by decide) (by decide)

/-- C8 amended.  With search_by_external_id set, a root external id that
resolves to no record makes action_export_to_xml raise the nothing-to-export
MissingError before any traversal or document; with search by model and
numeric id, the nonexistent root (m.x, 7) instead raises the ORM MissingError
on the first field read inside traversal.  Neither path returns successfully
with an empty document. -/
theorem c8_amended_thm (env : Env) (st : Settings)
    (hsearch : st.search_by_external_id = true)
    (hmiss : get_record_to_export env st = none) :
    action_export_stages env st
      = .error (.missingRootRecord "Record does not exist or has been deleted.")
    ∧ action_export_stages envMissing stById = .error .missingRecordRead := by
  constructor
  · unfold action_export_stages
    rw [hmiss, hsearch]
    simp
  · decide

/-- C8 witness: the unresolvable external id of stByXid in envMissing. -/
theorem c8_witness :
    action_export_stages envMissing stByXid
      = .error (.missingRootRecord "Record does not exist or has been deleted.")
    ∧ action_export_stages envMissing stById = .error .missingRecordRead :=
  c8_amended_thm envMissing stByXid (by decide) (by decide)

/-- C9 counterexample.  A many2many row whose single-line form is exactly 120
characters long (thus not exceeding 120) is nevertheless rendered with the
multi-line fallback layout, because the source tests len(row) > 119. -/
theorem c9_counterexample :
    (m2mSingleRow "f" ([longXid].map refWrap)).length = 120
    ∧ prepare_many2many_row [longXid] "f" = some (m2mMultiRow "f" ([longXid].map refWrap))
    ∧ '\n' ∈ (m2mMultiRow "f" ([longXid].map refWrap)).data
    ∧ '\n' ∉ (m2mSingleRow "f" ([longXid].map refWrap)).data := by
  refine ⟨by decide, by decide, by decide, by decide⟩

theorem str_ne_empty_of_sp (s : String) (l : List Char) (hl : s.data = ' ' :: l) :
    s ≠ "" := by
  intro hc
  rw [hc] at hl
  simp at hl

theorem m2oSingleRow_ne (f x : String) : m2oSingleRow f x ≠ "" :=
  str_ne_empty_of_sp _ _ rfl

theorem m2oMultiRow_ne (f x : String) : m2oMultiRow f x ≠ "" :=
  str_ne_empty_of_sp _ _ rfl

theorem m2mSingleRow_ne (f : String) (ext : List String) : m2mSingleRow f ext ≠ "" :=
  str_ne_empty_of_sp _ _ rfl

theorem m2mMultiRow_ne (f : String) (ext : List String) : m2mMultiRow f ext ≠ "" :=
  str_ne_empty_of_sp _ _ rfl

theorem m2o_row_some (xl : List String) (f : String) (hne : xl ≠ [])
    (hnn : ∀ x ∈ xl, x ≠ "") : ∃ r, prepare_many2one_row xl f = some r ∧ r ≠ "" := by
  cases xl with
  | nil => exact absurd rfl hne
  | cons x rest =>
      have hx : x ≠ "" := hnn x (by simp)
      simp only [prepare_many2one_row, List.head?_cons]
      rw [if_neg hx]
      by_cases hl : (m2oSingleRow f x).length > MAX_ROW_LENGTH
      · rw [if_pos hl]
        exact ⟨_, rfl, m2oMultiRow_ne f x⟩
      · rw [if_neg hl]
        exact ⟨_, rfl, m2oSingleRow_ne f x⟩

theorem m2m_row_some (xl : List String) (f : String) (hne : xl ≠ []) :
    ∃ r, prepare_many2many_row xl f = some r ∧ r ≠ "" := by
  have hext : xl.map refWrap ≠ [] := by
    intro hc
    exact hne (List.map_eq_nil_iff.mp hc)
  simp only [prepare_many2many_row]
  rw [if_neg hext]
  by_cases hl : (m2mSingleRow f (xl.map refWrap)).length > MAX_ROW_LENGTH
  · rw [if_pos hl]
    exact ⟨_, rfl, m2mMultiRow_ne f _⟩
  · rw [if_neg hl]
    exact ⟨_, rfl, m2mSingleRow_ne f _⟩

/-- C3.  In the final rendering pass, a single- or multi-reference field
snapshot (as traversal produces them: a nonempty list of nonempty external
ids, a nonempty related model) is suppressed, contributing no output line,
exactly when the resolved type-order index of its related model (default -1)
is strictly less than the index of the record's own model; otherwise a
nonempty row is emitted. -/
theorem c3_thm (smdd : List (String × Nat)) (model_name fname : String) (sn : Snap)
    (rm : String) (xl : List String)
    (htt : sn.ttype = "many2one" ∨ sn.ttype = "many2many")
    (hrel : sn.related_model = some rm) (hrm : rm ≠ "")
    (hval : sn.value = .xids xl) (hne : xl ≠ []) (hnn : ∀ x ∈ xl, x ≠ "") :
    (renderFieldRow smdd model_name (fname, sn) = none
      ↔ dictGetIdx smdd rm < dictGetIdx smdd model_name) := by
  have hsup : suppressedByOrder smdd model_name sn
      = decide (dictGetIdx smdd rm < dictGetIdx smdd model_name) := by
    simp [suppressedByOrder, hrel, hrm]
  by_cases hidx : dictGetIdx smdd rm < dictGetIdx smdd model_name
  · simp [renderFieldRow, hsup, hidx]
  · simp only [renderFieldRow, hsup, hidx, decide_eq_true_eq, if_false,
      decide_eq_false_iff_not]
    have hrow : ∃ r, prepare_xml_row_to_append fname sn.value sn.ttype
        = some r ∧ r ≠ "" := by
      rcases htt with htt | htt
      · rw [htt, hval]
        simpa [prepare_xml_row_to_append, valueXids] using m2o_row_some xl fname hne hnn
      · rw [htt, hval]
        simpa [prepare_xml_row_to_append, valueXids] using m2m_row_some xl fname hne
    obtain ⟨r, hr, hrne⟩ := hrow
    simp [renderFieldRowCore, hr, hrne, hidx]

/-- C3 witness: with type order {m.child at 0, m.own at 1}, a many2one field
of an m.own record pointing into m.child is suppressed, and with the order
reversed it is rendered. -/
theorem c3_witness :
    (renderFieldRow [("m.child", 0), ("m.own", 1)] "m.own"
        ("kid", { value := .xids ["x1"], ttype := "many2one",
                  related_model := some "m.child" }) = none
      ↔ dictGetIdx [("m.child", 0), ("m.own", 1)] "m.child"
          < dictGetIdx [("m.child", 0), ("m.own", 1)] "m.own") :=
  c3_thm [("m.child", 0), ("m.own", 1)] "m.own" "kid"
    { value := .xids ["x1"], ttype := "many2one", related_model := some "m.child" }
    "m.child" ["x1"] (Or.inl rfl) rfl (by decide) rfl (by decide) (by decide)

theorem strData_append (s t : String) : (s ++ t).data = s.data ++ t.data := rfl

theorem isPrefixOf_append_self : ∀ (p q : List Char), p.isPrefixOf (p ++ q) = true := by
  intro p
  induction p with
  | nil => intro q; simp [List.isPrefixOf]
  | cons c cs ih => intro q; simp [List.isPrefixOf, ih]

theorem digit_toNat (r : Nat) (hr : r < 10) : (Char.ofNat (48 + r)).toNat = 48 + r := by
  interval_cases r <;> decide

theorem natDecAux_digits (fuel : Nat) :
    ∀ (n : Nat) (c : Char), c ∈ natDecAux fuel n → 48 ≤ c.toNat ∧ c.toNat ≤ 57 := by
  induction fuel with
  | zero => intro n c hc; simp [natDecAux] at hc
  | succ fuel ih =>
      intro n c hc
      unfold natDecAux at hc
      split at hc
      · rename_i hn
        rw [List.mem_singleton] at hc
        subst hc
        rw [digit_toNat n hn]
        omega
      · rw [List.mem_append, List.mem_singleton] at hc
        rcases hc with hc | hc
        · exact ih (n / 10) c hc
        · subst hc
          rw [digit_toNat (n % 10) (Nat.mod_lt n (by omega))]
          omega

theorem natDec_digits (n : Nat) (c : Char) (hc : c ∈ natDec n) :
    48 ≤ c.toNat ∧ c.toNat ≤ 57 :=
  natDecAux_digits (n + 1) n c hc

theorem parseDec_append_one (xs : List Char) (c : Char) :
    parseDec (xs ++ [c]) = 10 * parseDec xs + (c.toNat - 48) := by
  unfold parseDec
  rw [List.foldl_append]
  rfl

theorem parseDec_natDecAux (fuel : Nat) :
    ∀ n : Nat, n < fuel → parseDec (natDecAux fuel n) = n := by
  induction fuel with
  | zero => intro n hn; omega
  | succ fuel ih =>
      intro n hn
      unfold natDecAux
      split
      · rename_i h10
        unfold parseDec
        simp [List.foldl, digit_toNat n h10]
      · rename_i h10
        rw [parseDec_append_one]
        have hdiv : n / 10 < fuel := by omega
        rw [ih (n / 10) hdiv]
        rw [digit_toNat (n % 10) (Nat.mod_lt n (by omega))]
        omega

theorem parseDec_natDec (n : Nat) : parseDec (natDec n) = n :=
  parseDec_natDecAux (n + 1) n (by omega)

theorem findFirst_zero (pat s : List Char) (h : pat.isPrefixOf s = true) :
    findFirst pat s = some 0 := by
  unfold findFirst findFirstFrom
  simp [h]

theorem findFirstFrom_isSome (pat s : List Char) (j : Nat)
    (hj : pat.isPrefixOf (s.drop j) = true) :
    ∀ (fuel start : Nat), start ≤ j → j < start + fuel →
      (findFirstFrom pat s fuel start).isSome = true := by
  intro fuel
  induction fuel with
  | zero => intro start h1 h2; omega
  | succ fuel ih =>
      intro start h1 h2
      unfold findFirstFrom
      by_cases hp : pat.isPrefixOf (s.drop start) = true
      · simp [hp]
      · have hne : start ≠ j := fun hc => hp (hc ▸ hj)
        simp [hp]
        exact ih (start + 1) (by omega) (by omega)

theorem findLastBelow_eq (p : Nat → Bool) (j : Nat) :
    ∀ bound : Nat, j < bound → p j = true →
      (∀ i, j < i → i < bound → p i = false) → findLastBelow p bound = some j := by
  intro bound
  induction bound with
  | zero => intro h; omega
  | succ bound ih =>
      intro hj hp hlater
      unfold findLastBelow
      by_cases hb : j = bound
      · subst hb
        simp [hp]
      · have hjb : j < bound := by omega
        have hpb : p bound = false := hlater bound hjb (by omega)
        simp [hpb]
        exact ih hjb hp (fun i h1 h2 => hlater i h1 (by omega))

theorem nondigit_head_not_prefix (c : Char) (cs l : List Char)
    (hc : c.toNat < 48 ∨ 57 < c.toNat)
    (hd : ∀ x ∈ l, 48 ≤ x.toNat ∧ x.toNat ≤ 57) :
    (c :: cs).isPrefixOf l = false := by
  cases l with
  | nil => rfl
  | cons x xs =>
      have hx := hd x (by simp)
      have hne : c ≠ x := by
        intro hcx
        subst hcx
        omega
      simp [List.isPrefixOf, beq_eq_false_iff_ne.mpr hne]

theorem sep_data_eq : EXTERNAL_ID_SEPARATOR.data = ['_', 'a', 'u', 't', 'o', '_'] := rfl

theorem sep_no_late_occurrence (D : List Char)
    (hd : ∀ x ∈ D, 48 ≤ x.toNat ∧ x.toNat ≤ 57) :
    ∀ k : Nat, EXTERNAL_ID_SEPARATOR.data.isPrefixOf
        ((EXTERNAL_ID_SEPARATOR.data ++ D).drop (k + 1)) = false := by
  intro k
  rw [sep_data_eq]
  match k with
  | 0 => simp [List.isPrefixOf]
  | 1 => simp [List.isPrefixOf]
  | 2 => simp [List.isPrefixOf]
  | 3 => simp [List.isPrefixOf]
  | 4 =>
      show (['_', 'a', 'u', 't', 'o', '_'].isPrefixOf (('_' :: D).drop 0)) = false
      rw [List.drop_zero]
      cases D with
      | nil => rfl
      | cons x xs =>
          have hx := hd x (by simp)
          have hne : ('a' : Char) ≠ x := by
            intro hcx
            rw [← hcx] at hx
            revert hx
            decide
          simp [List.isPrefixOf, beq_eq_false_iff_ne.mpr hne]
  | (m + 5) =>
      show (['_', 'a', 'u', 't', 'o', '_'].isPrefixOf (D.drop m)) = false
      exact nondigit_head_not_prefix '_' _ (D.drop m) (by decide)
        (fun x hx => hd x (List.mem_of_mem_drop hx))

theorem under_dots_round (model : String) (hm : '_' ∉ model.data) :
    undersToDots (dotsToUnders model) = model := by
  unfold undersToDots dotsToUnders charMap
  cases model with
  | mk data =>
      simp only [List.map_map]
      congr 1
      have : ∀ c ∈ data, ((fun c => if c = '_' then '.' else c) ∘
          (fun c => if c = '.' then '_' else c)) c = id c := by
        intro c hc
        by_cases hdot : c = '.'
        · simp [hdot]
        · have hund : c ≠ '_' := fun hcc => hm (hcc ▸ hc)
          simp [hdot, hund]
      rw [List.map_congr_left this, List.map_id]

/-- C10.  Round trip of synthesized virtual external ids: for a model name
whose characters include no underscore and any numeric id, the virtual id
produced by _prepare_external_id (no entry in ir.model.data) is parsed back
by _get_record_to_export with search_by_external_id enabled into exactly the
original model name and numeric id: the split happens at the last _auto_
occurrence, the id suffix is pure digits, and dots and underscores map back
bijectively. -/
theorem c10_thm (env : Env) (st : Settings) (model : String) (id : Nat)
    (hm : '_' ∉ model.data)
    (hxid : lookupXid env model id = none)
    (hsearch : st.search_by_external_id = true)
    (hset : st.xml_data_generator_external_id = prepare_external_id env model id) :
    get_record_to_export env st = some (model, [id]) := by
  have hshape : (prepare_external_id env model id).data
      = virtualMark.data ++ ((dotsToUnders model).data
          ++ (EXTERNAL_ID_SEPARATOR.data ++ natDec id)) := by
    simp [prepare_external_id, hxid, strData_append, natDecStr, List.append_assoc]
  set U := (dotsToUnders model).data with hU
  set D := natDec id with hD
  have hdD : ∀ x ∈ D, 48 ≤ x.toNat ∧ x.toNat ≤ 57 := fun x hx => natDec_digits id x hx
  have hpre : virtualMark.data.isPrefixOf (prepare_external_id env model id).data = true := by
    rw [hshape]
    exact isPrefixOf_append_self _ _
  have hlenX : (prepare_external_id env model id).data.length
      = virtualMark.data.length + (U.length + (6 + D.length)) := by
    rw [hshape]
    simp [sep_data_eq]
    omega
  have hsepAt : EXTERNAL_ID_SEPARATOR.data.isPrefixOf
      (((prepare_external_id env model id).data).drop (virtualMark.data.length + U.length))
        = true := by
    rw [hshape, ← List.append_assoc,
      show virtualMark.data.length + U.length = (virtualMark.data ++ U).length from
        (List.length_append _ _).symm,
      List.drop_left]
    exact isPrefixOf_append_self _ _
  have hcontains : containsSub EXTERNAL_ID_SEPARATOR.data
      (prepare_external_id env model id).data = true := by
    unfold containsSub findFirst
    exact findFirstFrom_isSome _ _ (virtualMark.data.length + U.length) hsepAt _ 0
      (by omega) (by omega)
  have hflag : is_xml_data_generator_external_id (prepare_external_id env model id)
      = true := by
    unfold is_xml_data_generator_external_id
    rw [hpre, hcontains]
    rfl
  have hff : findFirst virtualMark.data (prepare_external_id env model id).data
      = some 0 :=
    findFirst_zero _ _ hpre
  have hrecord : (prepare_external_id env model id).data.drop (0 + virtualMark.data.length)
      = U ++ (EXTERNAL_ID_SEPARATOR.data ++ D) := by
    rw [hshape, Nat.zero_add, List.drop_left]
  have hrfind : rfindChars EXTERNAL_ID_SEPARATOR.data
      (U ++ (EXTERNAL_ID_SEPARATOR.data ++ D)) = some U.length := by
    unfold rfindChars
    apply findLastBelow_eq
    · simp [sep_data_eq]
      omega
    · rw [List.drop_left]
      exact isPrefixOf_append_self _ _
    · intro i hi hib
      obtain ⟨k, rfl⟩ : ∃ k, i = U.length + (k + 1) := ⟨i - U.length - 1, by omega⟩
      rw [List.drop_append (k + 1)]
      exact sep_no_late_occurrence D hdD k
  have htake : (U ++ (EXTERNAL_ID_SEPARATOR.data ++ D)).take U.length = U :=
    List.take_left _ _
  have hdropid : (U ++ (EXTERNAL_ID_SEPARATOR.data ++ D)).drop
      (U.length + EXTERNAL_ID_SEPARATOR.data.length) = D := by
    rw [List.drop_append EXTERNAL_ID_SEPARATOR.data.length, List.drop_left]
  have hmodel : undersToDots ⟨U⟩ = model := by
    rw [hU]
    exact under_dots_round model hm
  simp only [get_record_to_export, hset, hsearch, hflag, hff, hrecord, hrfind,
    Option.getD_some, htake, hdropid, hmodel, Bool.not_true, if_true, if_false,
    Bool.false_eq_true, ite_false, ite_true, not_false_eq_true, not_true_eq_false]
  rw [hD, parseDec_natDec]

/-- C10 witness: the virtual id for (res.partner, 42) in envAB parses back. -/
theorem c10_witness : get_record_to_export envAB stC10 = some ("res.partner", [42]) :=
  c10_thm envAB stC10 "res.partner" 42 (by decide) (by decide) (by decide) rfl

/-! The depth-first resolver: supporting lemmas. -/

theorem mem_keysOf_of_alookup (elems : List (String × List String)) (n : String)
    (v : List String) (h : alookup elems n = some v) : n ∈ keysOf elems := by
  induction elems with
  | nil => simp [alookup] at h
  | cons p t ih =>
      obtain ⟨k, s⟩ := p
      by_cases hk : k = n
      · subst hk
        simp [keysOf]
      · simp only [alookup, hk, if_false] at h
        simp [keysOf]
        right
        simpa [keysOf] using ih h

theorem alookup_isSome_of_mem_keys (elems : List (String × List String)) (n : String)
    (h : n ∈ keysOf elems) : ∃ v, alookup elems n = some v := by
  induction elems with
  | nil => simp [keysOf] at h
  | cons p t ih =>
      obtain ⟨k, s⟩ := p
      by_cases hk : k = n
      · subst hk
        exact ⟨s, by simp [alookup]⟩
      · simp [keysOf, Ne.symm hk] at h
        obtain ⟨v, hv⟩ := ih (by simpa [keysOf] using h)
        exact ⟨v, by simpa [alookup, hk] using hv⟩

theorem alookup_mem (elems : List (String × List String)) (n : String)
    (v : List String) (h : alookup elems n = some v) : (n, v) ∈ elems := by
  induction elems with
  | nil => simp [alookup] at h
  | cons p t ih =>
      obtain ⟨k, s⟩ := p
      by_cases hk : k = n
      · subst hk
        simp [alookup] at h
        simp [h]
      · simp only [alookup, hk, if_false] at h
        exact List.mem_cons_of_mem _ (ih h)

theorem mem_topoUniv_of_dep (elems : List (String × List String)) (k d : String)
    (deps : List String) (hk : (k, deps) ∈ elems) (hd : d ∈ deps) :
    d ∈ topoUniv elems := by
  unfold topoUniv
  rw [List.mem_append]
  right
  rw [List.mem_flatten]
  exact ⟨deps, List.mem_map.mpr ⟨(k, deps), hk, rfl⟩, hd⟩

theorem mem_topoUniv_of_key (elems : List (String × List String)) (n : String)
    (h : n ∈ keysOf elems) : n ∈ topoUniv elems := by
  unfold topoUniv
  rw [List.mem_append]
  exact Or.inl h

theorem beforeIn_append (res t : List String) (a b : String)
    (h : beforeIn res a b) : beforeIn (res ++ t) a b := by
  obtain ⟨i, j, hij, ha, hb⟩ := h
  have hj : j < res.length := (List.getElem?_eq_some_iff.mp hb).1
  have hi : i < res.length := by omega
  exact ⟨i, j, hij, by rw [List.getElem?_append_left hi]; exact ha,
    by rw [List.getElem?_append_left hj]; exact hb⟩

theorem beforeIn_last (res : List String) (d k : String) (hd : d ∈ res) :
    beforeIn (res ++ [k]) d k := by
  obtain ⟨i, hi⟩ := List.mem_iff_getElem?.mp hd
  have hilen : i < res.length := (List.getElem?_eq_some_iff.mp hi).1
  refine ⟨i, res.length, hilen, ?_, ?_⟩
  · rw [List.getElem?_append_left hilen]
    exact hi
  · rw [List.getElem?_append_right (Nat.le_refl _)]
    simp

theorem filter_length_mono (l : List String) (p q : String → Bool)
    (h : ∀ x ∈ l, p x = true → q x = true) :
    (l.filter p).length ≤ (l.filter q).length := by
  induction l with
  | nil => simp
  | cons a t ih =>
      have ht : ∀ x ∈ t, p x = true → q x = true := fun x hx => h x (by simp [hx])
      by_cases hp : p a = true
      · have hq := h a (by simp) hp
        simp [List.filter, hp, hq]
        exact ih ht
      · simp only [List.filter, hp]
        rcases hq : q a with hfalse | htrue
        · exact ih ht
        · simp only [List.length_cons]
          exact Nat.le_succ_of_le (ih ht)

theorem countUnvis_mono (elems : List (String × List String)) (vis vis2 : List String)
    (h : ∀ x ∈ vis, x ∈ vis2) : countUnvis elems vis2 ≤ countUnvis elems vis := by
  unfold countUnvis
  apply filter_length_mono
  intro x hx hp
  simp only [decide_eq_true_eq] at hp ⊢
  intro hc
  exact hp (h x hc)

theorem filter_length_strict (l : List String) (n : String) (vis : List String)
    (hnd : l.Nodup) (hn : n ∈ l) (hnv : n ∉ vis) :
    (l.filter (fun x => x ∉ (n :: vis))).length
      < (l.filter (fun x => x ∉ vis)).length := by
  induction l with
  | nil => simp at hn
  | cons a t ih =>
      rw [List.nodup_cons] at hnd
      rcases List.mem_cons.mp hn with ha | ht
      · subst ha
        have hpa : (decide (n ∉ (n :: vis))) = false := by simp
        have hqa : (decide (n ∉ vis)) = true := by simpa using hnv
        simp only [List.filter, hpa, hqa, List.length_cons]
        have hmono : (t.filter (fun x => x ∉ (n :: vis))).length
            ≤ (t.filter (fun x => x ∉ vis)).length := by
          apply filter_length_mono
          intro x hx hp
          simp only [decide_eq_true_eq, List.mem_cons, not_or] at hp ⊢
          exact hp.2
        omega
      · have hna : a ≠ n := fun hc => hnd.1 (hc ▸ ht)
        have hsame : (decide (a ∉ (n :: vis))) = (decide (a ∉ vis)) := by
          simp only [List.mem_cons, not_or]
          by_cases hav : a ∈ vis
          · simp [hav]
          · simp [hav, hna]
        rcases hq : (decide (a ∉ vis)) with hfalse | htrue
        · simp only [List.filter, hsame, hq]
          exact ih hnd.2 ht
        · simp only [List.filter, hsame, hq, List.length_cons]
          exact Nat.succ_lt_succ (ih hnd.2 ht)

theorem countUnvis_strict (elems : List (String × List String)) (n : String)
    (vis : List String) (hn : n ∈ topoUniv elems) (hnv : n ∉ vis) :
    countUnvis elems (n :: vis) < countUnvis elems vis := by
  unfold countUnvis
  exact filter_length_strict _ n vis (List.nodup_dedup _) (List.mem_dedup.mpr hn) hnv

/-- Master specification of one depth-first visit of the spec-modelled
Dependency Resolver, under a ranking witnessing acyclicity: the visit only
grows the visited set, only appends to the emitted list, visits its argument,
stays inside the known names, never leaves a key visited-but-unemitted that
was not already so, emits only previously-unvisited names, preserves the
ordering invariant, and emits its argument when it is an unvisited key. -/
theorem topoVisit_master (elems : List (String × List String)) (rank : String → Nat)
    (hacyc : rankAcyclic elems rank) :
    ∀ (fuel : Nat) (n : String) (vis res : List String),
      n ∈ topoUniv elems →
      countUnvis elems vis < fuel →
      TopoInv elems vis res →
      (n ∈ keysOf elems → ∀ m ∈ keysOf elems, m ∈ vis → m ∉ res → rank n < rank m) →
      (∀ x ∈ vis, x ∈ (topoVisit elems fuel n (vis, res)).1)
      ∧ (∃ t, (topoVisit elems fuel n (vis, res)).2 = res ++ t)
      ∧ n ∈ (topoVisit elems fuel n (vis, res)).1
      ∧ (∀ x ∈ (topoVisit elems fuel n (vis, res)).1, x ∈ vis ∨ x ∈ topoUniv elems)
      ∧ (∀ m ∈ keysOf elems, m ∈ (topoVisit elems fuel n (vis, res)).1 →
          m ∉ (topoVisit elems fuel n (vis, res)).2 → m ∈ vis ∧ m ∉ res)
      ∧ (∀ x ∈ (topoVisit elems fuel n (vis, res)).2, x ∉ res → x ∉ vis)
      ∧ TopoInv elems (topoVisit elems fuel n (vis, res)).1
          (topoVisit elems fuel n (vis, res)).2
      ∧ (n ∈ keysOf elems → n ∉ vis → n ∈ (topoVisit elems fuel n (vis, res)).2) := by
  intro fuel
  induction fuel with
  | zero =>
      intro n vis res hn hcount hinv hprog
      exact absurd hcount (by omega)
  | succ fuel ih =>
      intro n vis res hn hcount hinv hprog
      by_cases hvis : n ∈ vis
      · have hvr : topoVisit elems (fuel + 1) n (vis, res) = (vis, res) := by
          simp [topoVisit, hvis]
        rw [hvr]
        exact ⟨fun x hx => hx, ⟨[], by simp⟩, hvis, fun x hx => Or.inl hx,
          fun m hm h1 h2 => ⟨h1, h2⟩, fun x hx hxr => absurd hx hxr, hinv,
          fun hk hnv => absurd hvis hnv⟩
      · cases halk : alookup elems n with
        | none =>
            have hvr : topoVisit elems (fuel + 1) n (vis, res) = (n :: vis, res) := by
              simp [topoVisit, hvis, halk]
            rw [hvr]
            refine ⟨fun x hx => List.mem_cons_of_mem _ hx, ⟨[], by simp⟩,
              List.mem_cons_self _ _, ?_, ?_, fun x hx hxr => absurd hx hxr, ?_, ?_⟩
            · intro x hx
              rcases List.mem_cons.mp hx with hx | hx
              · subst hx
                exact Or.inr hn
              · exact Or.inl hx
            · intro m hm h1 h2
              rcases List.mem_cons.mp h1 with h1 | h1
              · subst h1
                obtain ⟨v, hv⟩ := alookup_isSome_of_mem_keys elems m hm
                rw [halk] at hv
                cases hv
              · exact ⟨h1, h2⟩
            · obtain ⟨h1, h2, h3, h4⟩ := hinv
              exact ⟨h1, fun x hx => List.mem_cons_of_mem _ (h2 x hx), h3, h4⟩
            · intro hk hnv
              obtain ⟨v, hv⟩ := alookup_isSome_of_mem_keys elems n hk
              rw [halk] at hv
              cases hv
        | some deps =>
            have hkeyn : n ∈ keysOf elems := mem_keysOf_of_alookup elems n deps halk
            have hmemdeps : (n, deps) ∈ elems := alookup_mem elems n deps halk
            have hcount1 : countUnvis elems (n :: vis) < fuel := by
              have hs := countUnvis_strict elems n vis hn hvis
              omega
            have hfold : ∀ (ds : List String), (∀ d ∈ ds, d ∈ deps) →
                ∀ v r,
                (∀ x ∈ (n :: vis), x ∈ v) →
                (∀ x ∈ v, x ∈ (n :: vis) ∨ x ∈ topoUniv elems) →
                (∃ t, r = res ++ t) →
                (∀ m ∈ keysOf elems, m ∈ v → m ∉ r → m ∈ (n :: vis) ∧ m ∉ res) →
                (∀ x ∈ r, x ∉ res → x ∉ (n :: vis)) →
                TopoInv elems v r →
                (∀ x ∈ v,
                  x ∈ (ds.foldl (fun vr2 d => topoVisit elems fuel d vr2) (v, r)).1)
                ∧ (∃ t, (ds.foldl (fun vr2 d => topoVisit elems fuel d vr2) (v, r)).2
                      = res ++ t)
                ∧ (∀ x ∈ (ds.foldl (fun vr2 d => topoVisit elems fuel d vr2) (v, r)).1,
                    x ∈ (n :: vis) ∨ x ∈ topoUniv elems)
                ∧ (∀ m ∈ keysOf elems,
                    m ∈ (ds.foldl (fun vr2 d => topoVisit elems fuel d vr2) (v, r)).1 →
                    m ∉ (ds.foldl (fun vr2 d => topoVisit elems fuel d vr2) (v, r)).2 →
                    m ∈ (n :: vis) ∧ m ∉ res)
                ∧ (∀ x ∈ (ds.foldl (fun vr2 d => topoVisit elems fuel d vr2) (v, r)).2,
                    x ∉ res → x ∉ (n :: vis))
                ∧ TopoInv elems
                    (ds.foldl (fun vr2 d => topoVisit elems fuel d vr2) (v, r)).1
                    (ds.foldl (fun vr2 d => topoVisit elems fuel d vr2) (v, r)).2
                ∧ (∀ d ∈ ds,
                    d ∈ (ds.foldl (fun vr2 d2 => topoVisit elems fuel d2 vr2) (v, r)).1) := by
              intro ds
              induction ds with
              | nil =>
                  intro hds v r hJ1 hJ2 hJ3 hJ4 hJ5 hJ6
                  simp only [List.foldl_nil]
                  exact ⟨fun x hx => hx, hJ3, hJ2, hJ4, hJ5, hJ6, by simp⟩
              | cons d ds2 ihds =>
                  intro hds v r hJ1 hJ2 hJ3 hJ4 hJ5 hJ6
                  have hd : d ∈ deps := hds d (by simp)
                  have hduniv : d ∈ topoUniv elems :=
                    mem_topoUniv_of_dep elems n d deps hmemdeps hd
                  have hcv : countUnvis elems v < fuel :=
                    Nat.lt_of_le_of_lt (countUnvis_mono elems (n :: vis) v hJ1) hcount1
                  have hprogd : d ∈ keysOf elems → ∀ m ∈ keysOf elems, m ∈ v →
                      m ∉ r → rank d < rank m := by
                    intro hdk m hm hmv hmr
                    have hdn : rank d < rank n := hacyc (n, deps) hmemdeps d hd hdk
                    rcases (hJ4 m hm hmv hmr).1 |> List.mem_cons.mp with hmn | hmvis
                    · subst hmn
                      exact hdn
                    · have hmres : m ∉ res := (hJ4 m hm hmv hmr).2
                      exact Nat.lt_trans hdn (hprog hkeyn m hm hmvis hmres)
                  obtain ⟨q1, q2, q3, q4, q5, q6, q7, q8⟩ :=
                    ih d v r hduniv hcv hJ6 hprogd
                  simp only [List.foldl_cons]
                  obtain ⟨w1, w2, w3, w4, w5, w6, w7⟩ :=
                    ihds (fun x hx => hds x (by simp [hx]))
                      (topoVisit elems fuel d (v, r)).1 (topoVisit elems fuel d (v, r)).2
                      (fun x hx => q1 x (hJ1 x hx))
                      (fun x hx => by
                        rcases q4 x hx with hxv | hxu
                        · exact hJ2 x hxv
                        · exact Or.inr hxu)
                      (by
                        obtain ⟨t1, ht1⟩ := hJ3
                        obtain ⟨t2, ht2⟩ := q2
                        exact ⟨t1 ++ t2, by rw [ht2, ht1, List.append_assoc]⟩)
                      (fun m hm h1 h2 => hJ4 m hm (q5 m hm h1 h2).1 (q5 m hm h1 h2).2)
                      (fun x hx hxres => by
                        by_cases hxr : x ∈ r
                        · exact hJ5 x hxr hxres
                        · intro hc
                          exact (q6 x hx hxr) (hJ1 x hc))
                      q7
                  refine ⟨fun x hx => w1 x (q1 x hx), w2, w3, w4, w5, w6, ?_⟩
                  intro d2 hd2
                  rcases List.mem_cons.mp hd2 with hd2 | hd2
                  · subst hd2
                    exact w1 d2 q3
                  · exact w7 d2 hd2
            obtain ⟨F1, F2, F3, F4, F5, F6, F7⟩ :=
              hfold deps (fun d hd => hd) (n :: vis) res
                (fun x hx => hx) (fun x hx => Or.inl hx) ⟨[], by simp⟩
                (fun m hm h1 h2 => ⟨h1, h2⟩) (fun x hx hxres => absurd hx hxres)
                ⟨hinv.1, fun x hx => List.mem_cons_of_mem _ (hinv.2.1 x hx),
                  hinv.2.2.1, hinv.2.2.2⟩
            have hvr : topoVisit elems (fuel + 1) n (vis, res)
                = ((deps.foldl (fun vr2 d => topoVisit elems fuel d vr2) (n :: vis, res)).1,
                   (deps.foldl (fun vr2 d => topoVisit elems fuel d vr2)
                     (n :: vis, res)).2 ++ [n]) := by
              simp [topoVisit, hvis, halk]
            rw [hvr]
            set v_f := (deps.foldl (fun vr2 d => topoVisit elems fuel d vr2)
              (n :: vis, res)).1 with hv_f
            set r_f := (deps.foldl (fun vr2 d => topoVisit elems fuel d vr2)
              (n :: vis, res)).2 with hr_f
            have hnres : n ∉ res := fun hres => hvis (hinv.2.1 n hres)
            have hnotrf : n ∉ r_f := fun hc => (F5 n hc hnres) (List.mem_cons_self n vis)
            refine ⟨?_, ?_, ?_, ?_, ?_, ?_, ?_, ?_⟩
            · exact fun x hx => F1 x (List.mem_cons_of_mem _ hx)
            · obtain ⟨t, ht⟩ := F2
              exact ⟨t ++ [n], by rw [ht, List.append_assoc]⟩
            · exact F1 n (List.mem_cons_self n vis)
            · intro x hx
              rcases F3 x hx with hxv | hxu
              · rcases List.mem_cons.mp hxv with hxn | hxvis
                · subst hxn
                  exact Or.inr hn
                · exact Or.inl hxvis
              · exact Or.inr hxu
            · intro m hm h1 h2
              have h2f : m ∉ r_f := fun hc => h2 (List.mem_append_left _ hc)
              have hmn : m ≠ n := fun hc => h2 (by
                rw [hc]
                exact List.mem_append_right _ (List.mem_singleton.mpr rfl))
              have hq := F4 m hm h1 h2f
              rcases List.mem_cons.mp hq.1 with hmn2 | hmv
              · exact absurd hmn2 hmn
              · exact ⟨hmv, hq.2⟩
            · intro x hx hxres
              rcases List.mem_append.mp hx with hx | hx
              · exact fun hc => (F5 x hx hxres) (List.mem_cons_of_mem _ hc)
              · rw [List.mem_singleton] at hx
                subst hx
                exact hvis
            · obtain ⟨i1, i2, i3, i4⟩ := F6
              refine ⟨?_, ?_, ?_, ?_⟩
              · refine List.Nodup.append i1 (List.nodup_singleton n) ?_
                intro a ha han
                rw [List.mem_singleton] at han
                subst han
                exact hnotrf ha
              · intro x hx
                rcases List.mem_append.mp hx with hx | hx
                · exact i2 x hx
                · rw [List.mem_singleton] at hx
                  rw [hx]
                  exact F1 n (List.mem_cons_self n vis)
              · intro x hx
                rcases List.mem_append.mp hx with hx | hx
                · exact i3 x hx
                · rw [List.mem_singleton] at hx
                  subst hx
                  exact hkeyn
              · intro k deps2 d hk halk2 hd hdk
                rcases List.mem_append.mp hk with hkf | hkn
                · obtain ⟨hdin, hbef⟩ := i4 k deps2 d hkf halk2 hd hdk
                  exact ⟨List.mem_append_left _ hdin, beforeIn_append _ _ _ _ hbef⟩
                · rw [List.mem_singleton] at hkn
                  subst hkn
                  have hdeq : deps2 = deps := by
                    rw [halk] at halk2
                    exact (Option.some.inj halk2).symm
                  subst hdeq
                  have hdvf : d ∈ v_f := F7 d hd
                  have hdrf : d ∈ r_f := by
                    by_contra hdr
                    have hq := F4 d hdk hdvf hdr
                    rcases List.mem_cons.mp hq.1 with hdn | hdvis
                    · have hcontra : rank d < rank d := by
                        nth_rewrite 2 [hdn]
                        exact hacyc _ hmemdeps d hd hdk
                      exact absurd hcontra (lt_irrefl (rank d))
                    · have h1 := hprog hkeyn d hdk hdvis hq.2
                      have h2 : rank d < rank k := hacyc (k, deps2) hmemdeps d hd hdk
                      omega
                  exact ⟨List.mem_append_left _ hdrf, beforeIn_last r_f d k hdrf⟩
            · intro hk hnv
              exact List.mem_append_right _ (List.mem_singleton.mpr rfl)

/-- Soundness of the spec-modelled resolver on acyclic edge maps: the output
is duplicate-free, contains exactly the keys, and lists every key dependency
strictly before each of its dependents. -/
theorem topological_sort_spec (elems : List (String × List String))
    (rank : String → Nat) (hacyc : rankAcyclic elems rank) :
    (topological_sort elems).Nodup
    ∧ (∀ x ∈ topological_sort elems, x ∈ keysOf elems)
    ∧ (∀ k ∈ keysOf elems, k ∈ topological_sort elems)
    ∧ (∀ k deps d, alookup elems k = some deps → d ∈ deps → d ∈ keysOf elems →
        d ∈ topological_sort elems ∧ k ∈ topological_sort elems
        ∧ beforeIn (topological_sort elems) d k) := by
  have hfuel : ∀ vis, countUnvis elems vis < 1 + (topoUniv elems).length := by
    intro vis
    unfold countUnvis
    have h1 := List.length_filter_le (fun x => decide (x ∉ vis)) (topoUniv elems).dedup
    have h2 := (List.dedup_sublist (topoUniv elems)).length_le
    omega
  have hfold : ∀ (ds : List (String × List String)), (∀ p ∈ ds, p ∈ elems) →
      ∀ v r,
      TopoInv elems v r →
      (∀ m ∈ keysOf elems, m ∈ v → m ∈ r) →
      TopoInv elems
          (ds.foldl (fun vr kd =>
            topoVisit elems (1 + (topoUniv elems).length) kd.1 vr) (v, r)).1
          (ds.foldl (fun vr kd =>
            topoVisit elems (1 + (topoUniv elems).length) kd.1 vr) (v, r)).2
      ∧ (∀ m ∈ keysOf elems,
          m ∈ (ds.foldl (fun vr kd =>
            topoVisit elems (1 + (topoUniv elems).length) kd.1 vr) (v, r)).1 →
          m ∈ (ds.foldl (fun vr kd =>
            topoVisit elems (1 + (topoUniv elems).length) kd.1 vr) (v, r)).2)
      ∧ (∀ x ∈ r, x ∈ (ds.foldl (fun vr kd =>
            topoVisit elems (1 + (topoUniv elems).length) kd.1 vr) (v, r)).2)
      ∧ (∀ p ∈ ds, p.1 ∈ (ds.foldl (fun vr kd =>
            topoVisit elems (1 + (topoUniv elems).length) kd.1 vr) (v, r)).2) := by
    intro ds
    induction ds with
    | nil =>
        intro hds v r hinv hempty
        simp only [List.foldl_nil]
        exact ⟨hinv, hempty, fun x hx => hx, by simp⟩
    | cons kd ds2 ihds =>
        intro hds v r hinv hempty
        have hkdmem : kd ∈ elems := hds kd (by simp)
        have hkdkey : kd.1 ∈ keysOf elems := List.mem_map.mpr ⟨kd, hkdmem, rfl⟩
        obtain ⟨q1, q2, q3, q4, q5, q6, q7, q8⟩ :=
          topoVisit_master elems rank hacyc (1 + (topoUniv elems).length) kd.1 v r
            (mem_topoUniv_of_key elems kd.1 hkdkey) (hfuel v) hinv
            (fun _ m hm hmv hmr => absurd (hempty m hm hmv) hmr)
        simp only [List.foldl_cons]
        have hempty2 : ∀ m ∈ keysOf elems,
            m ∈ (topoVisit elems (1 + (topoUniv elems).length) kd.1 (v, r)).1 →
            m ∈ (topoVisit elems (1 + (topoUniv elems).length) kd.1 (v, r)).2 := by
          intro m hm hmv
          by_contra hmr
          obtain ⟨hmv2, hmr2⟩ := q5 m hm hmv hmr
          exact hmr2 (hempty m hm hmv2)
        obtain ⟨w1, w2, w3, w4⟩ :=
          ihds (fun p hp => hds p (by simp [hp]))
            (topoVisit elems (1 + (topoUniv elems).length) kd.1 (v, r)).1
            (topoVisit elems (1 + (topoUniv elems).length) kd.1 (v, r)).2
            q7 hempty2
        refine ⟨w1, w2, ?_, ?_⟩
        · intro x hx
          refine w3 x ?_
          obtain ⟨t, ht⟩ := q2
          rw [ht]
          exact List.mem_append_left _ hx
        · intro p hp
          rcases List.mem_cons.mp hp with hp | hp
          · rw [hp]
            refine w3 kd.1 ?_
            by_cases hkv : kd.1 ∈ v
            · obtain ⟨t, ht⟩ := q2
              rw [ht]
              exact List.mem_append_left _ (hempty kd.1 hkdkey hkv)
            · exact q8 hkdkey hkv
          · exact w4 p hp
  have hinv0 : TopoInv elems [] [] := by
    refine ⟨List.nodup_nil, ?_, ?_, ?_⟩
    · intro x hx
      simp at hx
    · intro x hx
      simp at hx
    · intro k deps d hk
      simp at hk
  obtain ⟨F1, F2, F3, F4⟩ := hfold elems (fun p hp => hp) [] [] hinv0
    (fun m hm hmv => by simp at hmv)
  have hts : topological_sort elems
      = (elems.foldl (fun vr kd =>
          topoVisit elems (1 + (topoUniv elems).length) kd.1 vr) ([], [])).2 := rfl
  rw [hts]
  refine ⟨F1.1, F1.2.2.1, ?_, ?_⟩
  · intro k hk
    obtain ⟨p, hp, hpk⟩ := List.mem_map.mp hk
    rw [← hpk]
    exact F4 p hp
  · intro k deps d halk hd hdk
    have hkkey : k ∈ keysOf elems := mem_keysOf_of_alookup elems k deps halk
    have hkres : k ∈ (elems.foldl (fun vr kd =>
        topoVisit elems (1 + (topoUniv elems).length) kd.1 vr) ([], [])).2 := by
      obtain ⟨p, hp, hpk⟩ := List.mem_map.mp hkkey
      rw [← hpk]
      exact F4 p hp
    obtain ⟨hdres, hbef⟩ := F1.2.2.2 k deps d hkres halk hd hdk
    exact ⟨hdres, hkres, hbef⟩

/-- Without any acyclicity assumption, every name the resolver emits is a
key of the edge map (leaf names occurring only inside dependency sets are
never emitted). -/
theorem topoVisit_sub_keys (elems : List (String × List String)) :
    ∀ (fuel : Nat) (n : String) (vis res : List String),
      (∀ x ∈ res, x ∈ keysOf elems) →
      ∀ x ∈ (topoVisit elems fuel n (vis, res)).2, x ∈ keysOf elems := by
  intro fuel
  induction fuel with
  | zero =>
      intro n vis res h
      simpa [topoVisit] using h
  | succ fuel ih =>
      intro n vis res h
      by_cases hvis : n ∈ vis
      · simpa [topoVisit, hvis] using h
      · cases halk : alookup elems n with
        | none => simpa [topoVisit, hvis, halk] using h
        | some deps =>
            have hfold : ∀ (ds : List String) (v r : List String),
                (∀ x ∈ r, x ∈ keysOf elems) →
                ∀ x ∈ (ds.foldl (fun vr2 d => topoVisit elems fuel d vr2) (v, r)).2,
                  x ∈ keysOf elems := by
              intro ds
              induction ds with
              | nil =>
                  intro v r hr
                  simpa using hr
              | cons d ds2 ihds =>
                  intro v r hr
                  simp only [List.foldl_cons]
                  exact ihds (topoVisit elems fuel d (v, r)).1
                    (topoVisit elems fuel d (v, r)).2 (ih d v r hr)
            have hvr : topoVisit elems (fuel + 1) n (vis, res)
                = ((deps.foldl (fun vr2 d => topoVisit elems fuel d vr2) (n :: vis, res)).1,
                   (deps.foldl (fun vr2 d => topoVisit elems fuel d vr2)
                     (n :: vis, res)).2 ++ [n]) := by
              simp [topoVisit, hvis, halk]
            rw [hvr]
            intro x hx
            rcases List.mem_append.mp hx with hx | hx
            · exact hfold deps (n :: vis) res h x hx
            · rw [List.mem_singleton] at hx
              rw [hx]
              exact mem_keysOf_of_alookup elems n deps halk

theorem topological_sort_sub_keys (elems : List (String × List String)) :
    ∀ x ∈ topological_sort elems, x ∈ keysOf elems := by
  have hfold : ∀ (ds : List (String × List String)) (v r : List String),
      (∀ x ∈ r, x ∈ keysOf elems) →
      ∀ x ∈ (ds.foldl (fun vr kd =>
          topoVisit elems (1 + (topoUniv elems).length) kd.1 vr) (v, r)).2,
        x ∈ keysOf elems := by
    intro ds
    induction ds with
    | nil =>
        intro v r hr
        simpa using hr
    | cons kd ds2 ihds =>
        intro v r hr
        simp only [List.foldl_cons]
        exact ihds (topoVisit elems (1 + (topoUniv elems).length) kd.1 (v, r)).1
          (topoVisit elems (1 + (topoUniv elems).length) kd.1 (v, r)).2
          (topoVisit_sub_keys elems (1 + (topoUniv elems).length) kd.1 v r hr)
  exact hfold elems [] [] (fun x hx => by simp at hx)

theorem mem_pySetDiff (xs ys : List String) (x : String) :
    x ∈ pySetDiff xs ys ↔ (x ∈ xs ∧ x ∉ ys) := by
  simp [pySetDiff, List.mem_filter, List.mem_dedup]

theorem pySetDiff_nodup (xs ys : List String) : (pySetDiff xs ys).Nodup :=
  List.Nodup.filter _ (List.nodup_dedup xs)

/-- How the staging locals of action_export_to_xml relate: the record-level
order is the bare sort of the record dependency map, the raw type-level order
is the bare sort of the model dependency map, and only the type-level order
receives the prepended set difference. -/
theorem action_stages_structure (env : Env) (st : Settings) (s : ExportStages)
    (h : action_export_stages env st = .ok s) :
    s.sorted_xml_dependencies = topological_sort s.recDeps
    ∧ s.sorted_models_raw = topological_sort s.modelDeps
    ∧ s.sorted_model_dependencies
        = pySetDiff (s.data2export.map Prod.fst) s.sorted_models_raw
            ++ s.sorted_models_raw := by
  unfold action_export_stages at h
  dsimp only at h
  split at h
  · exact Except.noConfusion h
  · split at h
    · exact Except.noConfusion h
    · split at h
      · exact Except.noConfusion h
      · injection h with h2
        subst h2
        exact ⟨rfl, rfl, rfl⟩

/-- C1 amended.  For every acyclic record-level dependency edge map, the
resolution step lists every dependency XID that is itself a key of the map
strictly before each XID depending on it (dependency values that are not
keys are omitted); and the record-level resolution step of
action_export_to_xml is exactly the sort of the traversed record dependency
map. -/
theorem c1_thm :
    (∀ (edges : List (String × List String)) (rank : String → Nat),
        rankAcyclic edges rank →
        ∀ k deps d, alookup edges k = some deps → d ∈ deps → d ∈ keysOf edges →
          d ∈ topological_sort edges ∧ k ∈ topological_sort edges
          ∧ beforeIn (topological_sort edges) d k)
    ∧ (∀ (env : Env) (st : Settings),
        (stagesOf (action_export_stages env st)).sorted_xml_dependencies
          = topological_sort (stagesOf (action_export_stages env st)).recDeps) := by
  constructor
  · intro edges rank hacyc k deps d halk hd hdk
    exact (topological_sort_spec edges rank hacyc).2.2.2 k deps d halk hd hdk
  · intro env st
    rcases hr : action_export_stages env st with e | s
    · rfl
    · exact (action_stages_structure env st s hr).1

/-- C1 witness: in the acyclic record-level edge map of envC2, the
dependency xidP of xidA is listed strictly before xidA. -/
theorem c1_witness :
    xidP ∈ topological_sort edgesC2 ∧ xidA ∈ topological_sort edgesC2
    ∧ beforeIn (topological_sort edgesC2) xidP xidA :=
  c1_thm.1 edgesC2 rankC2 (by unfold rankAcyclic keysOf; decide) xidA [xidB3, xidP]
    xidP (by decide) (by decide) (by decide)

/-- C5 amended.  In every export run, the prepend step applies only to the
type-level resolution: the final model order is the set difference of the
data models against the raw sorted order, prepended (deduplicated, exactly
the data models missing from the raw order) ahead of it; the record-level
sequence is the bare sorted output, whose members are all keys of the record
edge map, so value-only leaf XIDs never enter it. -/
theorem c5_amended_thm (env : Env) (st : Settings) (s : ExportStages)
    (hs : s = stagesOf (action_export_stages env st)) :
    s.sorted_model_dependencies
        = pySetDiff (s.data2export.map Prod.fst) s.sorted_models_raw
            ++ s.sorted_models_raw
    ∧ (∀ m ∈ s.data2export.map Prod.fst, m ∈ s.sorted_model_dependencies)
    ∧ (pySetDiff (s.data2export.map Prod.fst) s.sorted_models_raw).Nodup
    ∧ (∀ x, x ∈ pySetDiff (s.data2export.map Prod.fst) s.sorted_models_raw
        ↔ (x ∈ s.data2export.map Prod.fst ∧ x ∉ s.sorted_models_raw))
    ∧ s.sorted_xml_dependencies = topological_sort s.recDeps
    ∧ (∀ x ∈ s.sorted_xml_dependencies, x ∈ keysOf s.recDeps) := by
  have hstruct : s.sorted_xml_dependencies = topological_sort s.recDeps
      ∧ s.sorted_model_dependencies
        = pySetDiff (s.data2export.map Prod.fst) s.sorted_models_raw
            ++ s.sorted_models_raw := by
    rcases hr : action_export_stages env st with e | s0
    · rw [hs, hr]
      exact ⟨rfl, rfl⟩
    · have hss : s = s0 := by rw [hs, hr]; rfl
      subst hss
      obtain ⟨h1, h2, h3⟩ := action_stages_structure env st s hr
      exact ⟨h1, h3⟩
  refine ⟨hstruct.2, ?_, pySetDiff_nodup _ _,
    fun x => mem_pySetDiff _ _ x, hstruct.1, ?_⟩
  · intro m hm
    rw [hstruct.2, List.mem_append]
    by_cases hraw : m ∈ s.sorted_models_raw
    · exact Or.inr hraw
    · exact Or.inl ((mem_pySetDiff _ _ m).mpr ⟨hm, hraw⟩)
  · intro x hx
    rw [hstruct.1] at hx
    exact topological_sort_sub_keys s.recDeps x hx

/-- C5 witness: in envAB the data model m.a (absent from the raw sorted type
order) is present in the final type order, and the record-level sequence is
the bare sort of the record edge map. -/
theorem c5_witness :
    "m.a" ∈ (stagesOf (action_export_stages envAB stAB)).sorted_model_dependencies
    ∧ (stagesOf (action_export_stages envAB stAB)).sorted_xml_dependencies
        = topological_sort (stagesOf (action_export_stages envAB stAB)).recDeps :=
  ⟨(c5_amended_thm envAB stAB _ rfl).2.1 "m.a" (by decide),
   (c5_amended_thm envAB stAB _ rfl).2.2.2.2.1⟩

/-! The many2many row layouts: quoted-identifier extraction. -/

theorem sq_notin_append (s t : String) (hs : sq ∉ s.data) (ht : sq ∉ t.data) :
    sq ∉ (s ++ t).data := by
  rw [strData_append]
  intro hc
  rcases List.mem_append.mp hc with hc | hc
  · exact hs hc
  · exact ht hc

theorem mem_pyJoin (sep : String) (l : List String) (c : Char)
    (h : c ∈ (pyJoin sep l).data) : c ∈ sep.data ∨ ∃ x ∈ l, c ∈ x.data := by
  induction l with
  | nil => simp [pyJoin] at h
  | cons x t ih =>
      cases t with
      | nil => exact Or.inr ⟨x, by simp, by simpa [pyJoin] using h⟩
      | cons y t2 =>
          rw [pyJoin] at h
          simp only [strData_append, List.mem_append] at h
          rcases h with (h | h) | h
          · exact Or.inr ⟨x, by simp, h⟩
          · exact Or.inl h
          · rcases ih h with h2 | ⟨z, hz, hzc⟩
            · exact Or.inl h2
            · exact Or.inr ⟨z, by simp [hz], hzc⟩

theorem qsa_skip (s : List Char) (hs : sq ∉ s) :
    ∀ rest : List Char, quoteSegsAux (s ++ rest) none = quoteSegsAux rest none := by
  induction s with
  | nil => intro rest; rfl
  | cons c cs ih =>
      intro rest
      have hcne : ¬ (c = sq) := fun hc => hs (by rw [hc]; exact List.mem_cons_self _ _)
      have hcs : sq ∉ cs := fun hc => hs (List.mem_cons_of_mem _ hc)
      simp only [List.cons_append, quoteSegsAux, if_neg hcne]
      exact ih hcs rest

theorem qsa_empty (s : List Char) (hs : sq ∉ s) : quoteSegsAux s none = [] := by
  have h := qsa_skip s hs []
  rw [List.append_nil] at h
  rw [h]
  rfl

theorem qsa_collect (s : List Char) (hs : sq ∉ s) :
    ∀ (acc rest : List Char),
      quoteSegsAux (s ++ rest) (some acc)
        = quoteSegsAux rest (some (s.reverse ++ acc)) := by
  induction s with
  | nil => intro acc rest; simp
  | cons c cs ih =>
      intro acc rest
      have hcne : ¬ (c = sq) := fun hc => hs (by rw [hc]; exact List.mem_cons_self _ _)
      have hcs : sq ∉ cs := fun hc => hs (List.mem_cons_of_mem _ hc)
      simp only [List.cons_append, quoteSegsAux, if_neg hcne, List.append_eq]
      rw [ih hcs (c :: acc) rest]
      congr 2
      simp

theorem qsa_open (rest : List Char) :
    quoteSegsAux (sq :: rest) none = quoteSegsAux rest (some []) := by
  simp [quoteSegsAux]

theorem qsa_close (rest acc : List Char) :
    quoteSegsAux (sq :: rest) (some acc) = acc.reverse :: quoteSegsAux rest none := by
  simp [quoteSegsAux]

theorem qsa_refWrap (x : String) (hx : sq ∉ x.data) (rest : List Char) :
    quoteSegsAux ((refWrap x).data ++ rest) none = x.data :: quoteSegsAux rest none := by
  have hshape : (refWrap x).data ++ rest
      = "ref(".data ++ (sq :: (x.data ++ (sq :: (")".data ++ rest)))) := by
    simp [refWrap, sqs, strData_append, List.append_assoc]
  rw [hshape, qsa_skip "ref(".data (by decide), qsa_open, qsa_collect x.data hx,
    qsa_close, qsa_skip ")".data (by decide)]
  simp

theorem qsa_joinRefs (xids : List String) (hx : ∀ x ∈ xids, sq ∉ x.data)
    (sep : String) (hsep : sq ∉ sep.data) (rest : List Char) :
    quoteSegsAux ((pyJoin sep (xids.map refWrap)).data ++ rest) none
      = xids.map String.data ++ quoteSegsAux rest none := by
  induction xids with
  | nil => simp [pyJoin]
  | cons x t ih =>
      cases t with
      | nil =>
          simp only [List.map_cons, List.map_nil, pyJoin]
          rw [qsa_refWrap x (hx x (by simp)) rest]
          simp
      | cons y t2 =>
          simp only [List.map_cons, pyJoin]
          have hshape : ((refWrap x ++ sep
              ++ pyJoin sep (refWrap y :: t2.map refWrap)).data) ++ rest
              = (refWrap x).data ++ (sep.data
                  ++ ((pyJoin sep (refWrap y :: t2.map refWrap)).data ++ rest)) := by
            simp [strData_append, List.append_assoc]
          rw [hshape, qsa_refWrap x (hx x (by simp)) _, qsa_skip sep.data hsep]
          have hih := ih (fun z hz => hx z (by simp [hz]))
          simp only [List.map_cons] at hih
          rw [hih]
          simp

theorem mk_data (s : String) : String.mk s.data = s := rfl

theorem map_mk_map_data (l : List String) :
    (l.map String.data).map String.mk = l := by
  rw [List.map_map]
  have h : ∀ x ∈ l, (String.mk ∘ String.data) x = id x := fun x _ => mk_data x
  rw [List.map_congr_left h, List.map_id]

theorem quotedIds_m2mSingle (f : String) (xids : List String)
    (hf : sq ∉ f.data) (hx : ∀ x ∈ xids, sq ∉ x.data) :
    quotedIds (m2mSingleRow f (xids.map refWrap)) = xids := by
  unfold quotedIds
  have hshape : (m2mSingleRow f (xids.map refWrap)).data
      = (t4 ++ t4 ++ "<field name=\"" ++ f ++ "\" eval=\"" ++ "[(6, 0, [").data
        ++ ((pyJoin ", " (xids.map refWrap)).data ++ ("])]" ++ "\" />").data) := by
    simp [m2mSingleRow, m2mEvalSingle, strData_append, List.append_assoc]
  have hpre : sq ∉ (t4 ++ t4 ++ "<field name=\"" ++ f ++ "\" eval=\""
      ++ "[(6, 0, [").data := by
    repeat apply sq_notin_append
    all_goals first | exact hf | decide
  rw [hshape, qsa_skip _ hpre,
    qsa_joinRefs xids hx ", " (by decide) (("])]" ++ "\" />").data),
    qsa_empty _ (by decide)]
  rw [List.append_nil]
  exact map_mk_map_data xids

theorem quotedIds_m2mMulti (f : String) (xids : List String)
    (hf : sq ∉ f.data) (hx : ∀ x ∈ xids, sq ∉ x.data) :
    quotedIds (m2mMultiRow f (xids.map refWrap)) = xids := by
  unfold quotedIds
  have hshape : (m2mMultiRow f (xids.map refWrap)).data
      = (t4 ++ t4 ++ "<field\n" ++ t4 ++ t4 ++ t4 ++ "name=\"" ++ f ++ "\"" ++ "\n"
          ++ t4 ++ t4 ++ t4 ++ "eval=\"" ++ "[(6, 0, [\n" ++ t4 ++ t4 ++ t4 ++ t4).data
        ++ ((pyJoin (",\n" ++ t4 ++ t4 ++ t4 ++ t4) (xids.map refWrap)).data
            ++ (",\n" ++ t4 ++ t4 ++ t4 ++ "])]" ++ "\"" ++ "\n" ++ t4 ++ t4
                ++ "/>").data) := by
    simp [m2mMultiRow, m2mEvalMulti, strData_append, List.append_assoc]
  have hpre : sq ∉ (t4 ++ t4 ++ "<field\n" ++ t4 ++ t4 ++ t4 ++ "name=\"" ++ f ++ "\""
      ++ "\n" ++ t4 ++ t4 ++ t4 ++ "eval=\"" ++ "[(6, 0, [\n" ++ t4 ++ t4 ++ t4
      ++ t4).data := by
    repeat apply sq_notin_append
    all_goals first | exact hf | decide
  rw [hshape, qsa_skip _ hpre,
    qsa_joinRefs xids hx (",\n" ++ t4 ++ t4 ++ t4 ++ t4) (by decide)
      ((",\n" ++ t4 ++ t4 ++ t4 ++ "])]" ++ "\"" ++ "\n" ++ t4 ++ t4 ++ "/>").data),
    qsa_empty _ (by decide)]
  rw [List.append_nil]
  exact map_mk_map_data xids

theorem m2mSingle_no_nl (f : String) (xids : List String) (hf : '\n' ∉ f.data)
    (hx : ∀ x ∈ xids, '\n' ∉ x.data) :
    '\n' ∉ (m2mSingleRow f (xids.map refWrap)).data := by
  intro hc
  simp [m2mSingleRow, m2mEvalSingle, t4, strData_append, List.mem_append] at hc
  rcases hc with hc | hc
  · exact hf hc
  · rcases mem_pyJoin _ _ _ hc with hsep | ⟨z, hz, hzc⟩
    · revert hsep
      decide
    · obtain ⟨x0, hx0, rfl⟩ := List.mem_map.mp hz
      simp [refWrap, sqs, strData_append, List.mem_append] at hzc
      rcases hzc with hzc | hzc | hzc
      · revert hzc
        decide
      · exact hx x0 hx0 hzc
      · revert hzc
        decide

theorem m2mMulti_has_nl (f : String) (ext : List String) :
    '\n' ∈ (m2mMultiRow f ext).data := by
  simp [m2mMultiRow, strData_append, List.mem_append]

/-- C9 amended.  A many2many row (with quote- and newline-free identifiers,
as real external ids are) takes the multi-line fallback layout exactly when
the single-line row is longer than MAX_ROW_LENGTH = 119 characters, i.e. at
least 120 characters; and both layouts carry exactly the same single-quoted
ref targets, in the same order. -/
theorem c9_thm (field : String) (xids : List String) (row : String)
    (hne : xids ≠ [])
    (hq : ∀ x ∈ xids, sq ∉ x.data ∧ '\n' ∉ x.data)
    (hf : sq ∉ field.data) (hfn : '\n' ∉ field.data)
    (hrow : prepare_many2many_row xids field = some row) :
    (('\n' ∈ row.data)
      ↔ MAX_ROW_LENGTH < (m2mSingleRow field (xids.map refWrap)).length)
    ∧ quotedIds row = xids := by
  have hext : xids.map refWrap ≠ [] := fun hc => hne (List.map_eq_nil_iff.mp hc)
  have hqs : ∀ x ∈ xids, sq ∉ x.data := fun x hxm => (hq x hxm).1
  have hqn : ∀ x ∈ xids, '\n' ∉ x.data := fun x hxm => (hq x hxm).2
  unfold prepare_many2many_row at hrow
  rw [if_neg hext] at hrow
  by_cases hlen : (m2mSingleRow field (xids.map refWrap)).length > MAX_ROW_LENGTH
  · rw [if_pos hlen] at hrow
    have hr : row = m2mMultiRow field (xids.map refWrap) := (Option.some.inj hrow).symm
    subst hr
    exact ⟨iff_of_true (m2mMulti_has_nl field _) hlen, quotedIds_m2mMulti field xids hf hqs⟩
  · rw [if_neg hlen] at hrow
    have hr : row = m2mSingleRow field (xids.map refWrap) := (Option.some.inj hrow).symm
    subst hr
    exact ⟨iff_of_false (m2mSingle_no_nl field xids hfn hqn) hlen,
      quotedIds_m2mSingle field xids hf hqs⟩

/-- C9 witness: a short two-target row keeps the single-line layout and its
quoted targets are the two identifiers in order. -/
theorem c9_witness :
    (('\n' ∈ (m2mSingleRow "f" (["a", "b"].map refWrap)).data)
      ↔ MAX_ROW_LENGTH < (m2mSingleRow "f" (["a", "b"].map refWrap)).length)
    ∧ quotedIds (m2mSingleRow "f" (["a", "b"].map refWrap)) = ["a", "b"] :=
  c9_thm "f" ["a", "b"] (m2mSingleRow "f" (["a", "b"].map refWrap)) (by decide)
    (by decide) (by decide) (by decide) (by decide)

end XDG
